import Mathlib

/-!
# go-tami: the Time-Adjusted Market Index pipeline

A shallow embedding of `tami.go` and a verification of its specification.

Modelling conventions.

* The arithmetic of the program has two embeddings.  In the first, `float64`
  prices and index values are exact rationals (`ℚ`): it carries the identities
  of the algorithm, which hold over exact arithmetic.  Every division the
  program performs is listed by `civDenominators` / `ratioDenominators`, so
  that the absence of a zero denominator is a statement of its own.  In the
  second (`F64`, and the functions whose name ends in `F64`) the same source
  lines run in IEEE-754 binary64 arithmetic, with rounding, overflow,
  underflow, infinities and NaN: it decides what the running program returns
  where that differs from the exact result.
* `time.Time` instants are integers (any fixed resolution); `Before` is `<`.
* `ItemID interface{}` is a type parameter `ι` with decidable equality.
* A Go `map` is an association list with distinct keys (`GoMap`).  Go iterates
  a map in an unspecified order: every `range` over a map goes through a
  `RangeOrder`, an arbitrary permutation, and the theorems hold for all of them.
* `time.Now()` and the calendar arithmetic of `AddDate` are outside the
  repository: `FilterValidTransactions` takes the two window bounds
  `oneYearAgo` and `sixMonthsAgo` as parameters.
* `sort.Slice` is the Go standard library; it is modelled by the insertion sort
  driven by the `less` function of the source.  The model is stable and the
  library is not: the two return the same slice on at most 12 elements, on
  chronological input and on pairwise distinct timestamps, and the theorems
  below are about those cases or hold of any correct sort.
-/

namespace Tami

/-! ## Data model -/

/-- Source type `Transaction` (tami.go, lines 8-12).  A `time.Time` instant is
an integer: a point of a discrete linear time line. -/
structure Transaction (ι : Type) where
  Price : ℚ
  ItemID : ι
  Timestamp : Int
deriving DecidableEq

/-- Source type `IndexValueHistoryItem` (tami.go, lines 14-19). -/
structure IndexValueHistoryItem (ι : Type) where
  Price : ℚ
  ItemID : ι
  IndexValue : ℚ
  Transaction : Transaction ι
deriving DecidableEq

/-- Source type `IndexValueHistoryItemWithRatio` (tami.go, lines 21-24). -/
structure IndexValueHistoryItemWithRatio (ι : Type) where
  IndexValueHistoryItem : IndexValueHistoryItem ι
  IndexRatio : ℚ
deriving DecidableEq

/-! ## Go maps -/

/-- A Go map from `ι` to `V`: an association list whose keys are distinct. -/
abbrev GoMap (ι V : Type) := List (ι × V)

/-- Map read `m[k]` with the presence flag: `none` when the key is absent. -/
def GoMap.lookup {ι V : Type} [DecidableEq ι] : GoMap ι V → ι → Option V
  | [], _ => none
  | (k', v) :: rest, k => if k' = k then some v else GoMap.lookup rest k

/-- Map write `m[k] = v`: overwrites the entry of `k`, or adds one. -/
def GoMap.store {ι V : Type} [DecidableEq ι] : GoMap ι V → ι → V → GoMap ι V
  | [], k, v => [(k, v)]
  | (k', v') :: rest, k, v =>
    if k' = k then (k, v) :: rest else (k', v') :: GoMap.store rest k v

/-- Go `len(m)`. -/
def GoMap.len {ι V : Type} (m : GoMap ι V) : Nat := m.length

/-- The order in which a `range` loop visits the entries of a map: Go leaves
it unspecified, so it is an arbitrary rearrangement of the entries. -/
structure RangeOrder where
  shuffle : {α : Type} → List α → List α
  perm : ∀ {α : Type} (l : List α), (shuffle l).Perm l

/-- The iteration order that visits the entries as stored. -/
def RangeOrder.stored : RangeOrder where
  shuffle := fun l => l
  perm := fun l => List.Perm.refl l

/-- The iteration order that visits the entries backwards. -/
def RangeOrder.backwards : RangeOrder where
  shuffle := fun l => l.reverse
  perm := fun l => List.reverse_perm l

/-! ## SortTransactions (tami.go, lines 26-32) -/

/-- The `less` closure handed to `sort.Slice`: `a.Timestamp.Before(b.Timestamp)`. -/
def before {ι : Type} (a b : Transaction ι) : Prop := a.Timestamp < b.Timestamp

instance {ι : Type} (a b : Transaction ι) : Decidable (before a b) := by
  unfold before; infer_instance

/-- `sort.Slice` as an insertion sort on `less`: an element moves towards the
front only past elements it is strictly `less` than. -/
def sortSlice {α : Type} (less : α → α → Prop) [DecidableRel less] (l : List α) : List α :=
  l.insertionSort (fun a b => ¬ less b a)

/-- Source function `SortTransactions`. -/
def SortTransactions {ι : Type} (transactionHistory : List (Transaction ι)) :
    List (Transaction ι) :=
  sortSlice before transactionHistory

/-! ## FilterValidTransactions (tami.go, lines 34-90) -/

/-- The local type `include` of `FilterValidTransactions`.  The counter is a Go
`int`; it is bounded by the length of the input slice and cannot overflow. -/
structure Include where
  PastYearSaleCount : Nat
  HasSaleInLastSixMonths : Bool
  IsValid : Bool
deriving DecidableEq

/-- The record a first-seen item is given (lines 51-55). -/
def Include.fresh : Include := ⟨0, false, false⟩

/-- Lines 59-77: what one transaction does to the record `currentMapItem`
points to.  A `continue` leaves the record as it is at that point. -/
def visitInclude {ι : Type} (oneYearAgo sixMonthsAgo : Int) (currentMapItem : Include)
    (transaction : Transaction ι) : Include :=
  if currentMapItem.IsValid then currentMapItem
  else if transaction.Timestamp < oneYearAgo then currentMapItem
  else
    let counted : Include :=
      { currentMapItem with PastYearSaleCount := currentMapItem.PastYearSaleCount + 1 }
    if transaction.Timestamp < sixMonthsAgo then counted
    else
      let recent : Include := { counted with HasSaleInLastSixMonths := true }
      if recent.PastYearSaleCount ≥ 2 then { recent with IsValid := true } else recent

/-- One iteration of the first loop (lines 49-79): the item gets a fresh record
when it has none, then its record is updated through the pointer. -/
def filterVisit {ι : Type} [DecidableEq ι] (oneYearAgo sixMonthsAgo : Int)
    (inclusionMap : GoMap ι Include) (transaction : Transaction ι) : GoMap ι Include :=
  let inclusionMap :=
    if (GoMap.lookup inclusionMap transaction.ItemID).isSome then inclusionMap
    else GoMap.store inclusionMap transaction.ItemID Include.fresh
  let currentMapItem := (GoMap.lookup inclusionMap transaction.ItemID).getD Include.fresh
  GoMap.store inclusionMap transaction.ItemID
    (visitInclude oneYearAgo sixMonthsAgo currentMapItem transaction)

/-- The first loop of `FilterValidTransactions`, from a given map. -/
def inclusionLoop {ι : Type} [DecidableEq ι] (oneYearAgo sixMonthsAgo : Int)
    (inclusionMap : GoMap ι Include) (transactionHistory : List (Transaction ι)) :
    GoMap ι Include :=
  transactionHistory.foldl (filterVisit oneYearAgo sixMonthsAgo) inclusionMap

/-- The test `inclusionMap[transaction.ItemID].IsValid` of the second loop
(line 84).  Every item of the input has a record after the first loop. -/
def isValidIn {ι : Type} [DecidableEq ι] (inclusionMap : GoMap ι Include) (itemID : ι) : Bool :=
  match GoMap.lookup inclusionMap itemID with
  | some currentMapItem => currentMapItem.IsValid
  | none => false

/-- Source function `FilterValidTransactions`, with the two window bounds
computed from `time.Now()` as parameters. -/
def FilterValidTransactions {ι : Type} [DecidableEq ι] (oneYearAgo sixMonthsAgo : Int)
    (transactionHistory : List (Transaction ι)) : List (Transaction ι) :=
  let inclusionMap := inclusionLoop oneYearAgo sixMonthsAgo [] transactionHistory
  transactionHistory.filter (fun transaction => isValidIn inclusionMap transaction.ItemID)

/-! ## CreateIndexValueHistory (tami.go, lines 92-148) -/

/-- The variables of `CreateIndexValueHistory` that live across iterations. -/
structure CIVState (ι : Type) where
  transactionMap : GoMap ι (Transaction ι)
  lastIndexValue : ℚ
  lastDivisor : ℚ
  result : List (IndexValueHistoryItem ι)

/-- Lines 95-99: the variables before the loop. -/
def civInit {ι : Type} : CIVState ι :=
  { transactionMap := [], lastIndexValue := 0, lastDivisor := 1, result := [] }

/-- Lines 103-104: `isFirstSale`, read before the map is written. -/
def civIsFirstSale {ι : Type} [DecidableEq ι] (st : CIVState ι) (transaction : Transaction ι) :
    Bool :=
  !(GoMap.lookup st.transactionMap transaction.ItemID).isSome

/-- Line 106: the map after `transactionMap[transaction.ItemID] = transaction`. -/
def civMap {ι : Type} [DecidableEq ι] (st : CIVState ι) (transaction : Transaction ι) :
    GoMap ι (Transaction ι) :=
  GoMap.store st.transactionMap transaction.ItemID transaction

/-- Line 108: `itemCount`. -/
def civItemCount {ι : Type} [DecidableEq ι] (st : CIVState ι) (transaction : Transaction ι) :
    Nat :=
  GoMap.len (civMap st transaction)

/-- Lines 110-114: `allLastSoldValue`, accumulated over a `range` of the map. -/
def civAllLastSoldValue {ι : Type} [DecidableEq ι] (ord : RangeOrder) (st : CIVState ι)
    (transaction : Transaction ι) : ℚ :=
  (ord.shuffle (civMap st transaction)).foldl (fun acc kv => acc + kv.2.Price) 0

/-- Line 116: `indexValue`. -/
def civIndexValue {ι : Type} [DecidableEq ι] (ord : RangeOrder) (st : CIVState ι)
    (transaction : Transaction ι) : ℚ :=
  civAllLastSoldValue ord st transaction / ((civItemCount st transaction : ℚ) * st.lastDivisor)

/-- Lines 130-133: `nextDivisor`. -/
def civNextDivisor {ι : Type} [DecidableEq ι] (ord : RangeOrder) (st : CIVState ι)
    (transaction : Transaction ι) : ℚ :=
  if civIsFirstSale st transaction then
    st.lastDivisor * (civIndexValue ord st transaction / st.lastIndexValue)
  else st.lastDivisor

/-- Line 135: `weightedIndexValue`. -/
def civWeightedIndexValue {ι : Type} [DecidableEq ι] (ord : RangeOrder) (st : CIVState ι)
    (transaction : Transaction ι) : ℚ :=
  civAllLastSoldValue ord st transaction /
    ((civItemCount st transaction : ℚ) * civNextDivisor ord st transaction)

/-- The loop body (lines 102-144) at loop index `i`. -/
def civStep {ι : Type} [DecidableEq ι] (ord : RangeOrder) (i : Nat) (st : CIVState ι)
    (transaction : Transaction ι) : CIVState ι :=
  if i = 0 then
    { transactionMap := civMap st transaction
      lastIndexValue := civIndexValue ord st transaction
      lastDivisor := st.lastDivisor
      result := st.result ++
        [{ ItemID := transaction.ItemID, Price := transaction.Price,
           IndexValue := civIndexValue ord st transaction, Transaction := transaction }] }
  else
    { transactionMap := civMap st transaction
      lastIndexValue := civWeightedIndexValue ord st transaction
      lastDivisor := civNextDivisor ord st transaction
      result := st.result ++
        [{ ItemID := transaction.ItemID, Price := transaction.Price,
           IndexValue := civWeightedIndexValue ord st transaction, Transaction := transaction }] }

/-- The loop `for i := 0; i < len(transactionHistory); i++`, entered at index
`i` with the transactions from `i` on still to process. -/
def civLoop {ι : Type} [DecidableEq ι] (ord : RangeOrder) :
    Nat → CIVState ι → List (Transaction ι) → CIVState ι
  | _, st, [] => st
  | i, st, transaction :: rest => civLoop ord (i + 1) (civStep ord i st transaction) rest

/-- Source function `CreateIndexValueHistory`. -/
def CreateIndexValueHistory {ι : Type} [DecidableEq ι] (ord : RangeOrder)
    (transactionHistory : List (Transaction ι)) : List (IndexValueHistoryItem ι) :=
  (civLoop ord 0 civInit transactionHistory).result

/-- The denominators of the divisions one iteration performs: line 116 always,
line 132 when a divisor is re-based, line 135 when `i` is not 0. -/
def civDenominators {ι : Type} [DecidableEq ι] (ord : RangeOrder) (i : Nat) (st : CIVState ι)
    (transaction : Transaction ι) : List ℚ :=
  [(civItemCount st transaction : ℚ) * st.lastDivisor] ++
    (if i ≠ 0 ∧ civIsFirstSale st transaction = true then [st.lastIndexValue] else []) ++
    (if i ≠ 0 then [(civItemCount st transaction : ℚ) * civNextDivisor ord st transaction]
     else [])

/-! ## GetIndexValue, GetIndexRatios, TAMI (tami.go, lines 150-198) -/

/-- Source function `GetIndexValue`. -/
def GetIndexValue {ι : Type} (indexValueHistory : List (IndexValueHistoryItem ι)) : ℚ :=
  if h : indexValueHistory.length = 0 then 0
  else (indexValueHistory.get ⟨indexValueHistory.length - 1, by omega⟩).IndexValue

/-- Lines 162-165: `lastSaleMap` after the first loop of `GetIndexRatios`. -/
def lastSaleMap {ι : Type} [DecidableEq ι] (indexValueHistory : List (IndexValueHistoryItem ι)) :
    GoMap ι (IndexValueHistoryItem ι) :=
  indexValueHistory.foldl (fun m item => GoMap.store m item.ItemID item) []

/-- Lines 169-177: the record appended for one map value `v`. -/
def withRatio {ι : Type} (v : IndexValueHistoryItem ι) : IndexValueHistoryItemWithRatio ι :=
  { IndexValueHistoryItem :=
      { Price := v.Price, ItemID := v.ItemID, IndexValue := v.IndexValue,
        Transaction := v.Transaction }
    IndexRatio := v.Price / v.IndexValue }

/-- Source function `GetIndexRatios`. -/
def GetIndexRatios {ι : Type} [DecidableEq ι] (ord : RangeOrder)
    (indexValueHistory : List (IndexValueHistoryItem ι)) :
    List (IndexValueHistoryItemWithRatio ι) :=
  (ord.shuffle (lastSaleMap indexValueHistory)).map (fun kv => withRatio kv.2)

/-- The denominators of the divisions of `GetIndexRatios` (line 176). -/
def ratioDenominators {ι : Type} [DecidableEq ι] (ord : RangeOrder)
    (indexValueHistory : List (IndexValueHistoryItem ι)) : List ℚ :=
  (ord.shuffle (lastSaleMap indexValueHistory)).map (fun kv => kv.2.IndexValue)

/-- Source function `TAMI`, with the window bounds of the filter as parameters. -/
def TAMI {ι : Type} [DecidableEq ι] (ord : RangeOrder) (oneYearAgo sixMonthsAgo : Int)
    (transactionHistory : List (Transaction ι)) : ℚ :=
  let sortedTransactions := SortTransactions transactionHistory
  let validTransactions := FilterValidTransactions oneYearAgo sixMonthsAgo sortedTransactions
  let indexValueHistory := CreateIndexValueHistory ord validTransactions
  let indexValue := GetIndexValue indexValueHistory
  let indexRatios := GetIndexRatios ord indexValueHistory
  let timeAdjustedValues := indexRatios.map (fun item => indexValue * item.IndexRatio)
  timeAdjustedValues.foldl (fun timeAdjustedMarketIndex v => timeAdjustedMarketIndex + v) 0

/-! ## The fixture of the tests -/

/-- The fixture `mockTransactionHistory` of tami_test.go (lines 21-29), over
the instants the test derives from `now`. -/
def mockTransactionHistory (yesterday twoDaysAgo threeDaysAgo oneMonthAgo sixWeeksAgo
    twoYearsAgo : Int) : List (Transaction String) :=
  [ { ItemID := "Lavender", Price := 500, Timestamp := threeDaysAgo },
    { ItemID := "Hyacinth", Price := 700, Timestamp := oneMonthAgo },
    { ItemID := "Mars", Price := 1200, Timestamp := twoDaysAgo },
    { ItemID := "Nyx", Price := 612, Timestamp := twoYearsAgo },
    { ItemID := "Hyacinth", Price := 400, Timestamp := threeDaysAgo },
    { ItemID := "Nyx", Price := 1200, Timestamp := yesterday },
    { ItemID := "Mars", Price := 612, Timestamp := sixWeeksAgo } ]

/-! ## Auxiliary definitions of the verification -/

/-- The record of item `a` after the first loop has run over `txs`, starting
from the record `inc`: only the transactions of `a` touch it. -/
def recordAfter {ι : Type} [DecidableEq ι] (oneYearAgo sixMonthsAgo : Int) (inc : Include)
    (txs : List (Transaction ι)) (a : ι) : Include :=
  (txs.filter (fun t => t.ItemID = a)).foldl (visitInclude oneYearAgo sixMonthsAgo) inc

/-- The state of `CreateIndexValueHistory` after the transactions `l`. -/
def civAfter {ι : Type} [DecidableEq ι] (ord : RangeOrder) (l : List (Transaction ι)) :
    CIVState ι :=
  civLoop ord 0 civInit l

/-- What `CreateIndexValueHistory` keeps true whatever the prices are. -/
def CIVStruct {ι : Type} [DecidableEq ι] (l : List (Transaction ι)) (st : CIVState ι) :
    Prop :=
  (∀ a : ι, GoMap.lookup st.transactionMap a = none ↔ a ∉ l.map (fun t => t.ItemID)) ∧
  st.result.length = l.length ∧
  (l ≠ [] → st.result.getLast?.map (fun r => r.IndexValue) = some st.lastIndexValue)

/-- What `CreateIndexValueHistory` keeps true when the prices are positive. -/
def CIVPos {ι : Type} (l : List (Transaction ι)) (st : CIVState ι) : Prop :=
  (∀ kv ∈ st.transactionMap, 0 < kv.2.Price) ∧ 0 < st.lastDivisor ∧
  (l ≠ [] → 0 < st.lastIndexValue) ∧ (∀ r ∈ st.result, 0 < r.IndexValue)

/-- The last record of `h` whose `ItemID` is `a`, if there is one. -/
def lastRecordOf {ι : Type} [DecidableEq ι] (h : List (IndexValueHistoryItem ι)) (a : ι) :
    Option (IndexValueHistoryItem ι) :=
  (h.filter (fun r => r.ItemID = a)).getLast?

/-- The `IndexValue` of the final record of `h`; 0 when `h` has no record. -/
def finalIndexValue {ι : Type} (h : List (IndexValueHistoryItem ι)) : ℚ :=
  match h.getLast? with
  | some r => r.IndexValue
  | none => 0

/-- The time-adjusted value of item `a` in the words of the specification: the
final index value times the ratio of the price to the index value of the last
record of `a`. -/
def timeAdjustedValue {ι : Type} [DecidableEq ι] (h : List (IndexValueHistoryItem ι))
    (a : ι) : ℚ :=
  match lastRecordOf h a with
  | some v => finalIndexValue h * (v.Price / v.IndexValue)
  | none => 0

/-- The map built by storing every element of `l` under its key, in order:
the shape of `transactionMap` and of `lastSaleMap`. -/
def storeAll {α ι : Type} [DecidableEq ι] (key : α → ι) (l : List α) : GoMap ι α :=
  l.foldl (fun m x => GoMap.store m (key x) x) []

/-- The sum of the latest prices of all items seen in `l`, in the words of the
specification: for each distinct item, the price of its last transaction. -/
def latestPriceSum {ι : Type} [DecidableEq ι] (l : List (Transaction ι)) : ℚ :=
  ∑ a ∈ (l.map (fun t => t.ItemID)).toFinset,
    (((l.filter (fun t => t.ItemID = a)).getLast?).map (fun t => t.Price)).getD 0

/-- The transaction `t` with its price multiplied by `c`. -/
def scalePrice {ι : Type} (c : ℚ) (t : Transaction ι) : Transaction ι :=
  { t with Price := c * t.Price }

/-- The transactions `txs` with every price multiplied by `c`. -/
def scalePrices {ι : Type} (c : ℚ) (txs : List (Transaction ι)) : List (Transaction ι) :=
  txs.map (scalePrice c)

/-- The record `r` with its price, its index value and the price of its
transaction multiplied by `c`. -/
def scaleRecord {ι : Type} (c : ℚ) (r : IndexValueHistoryItem ι) : IndexValueHistoryItem ι :=
  { Price := c * r.Price, ItemID := r.ItemID, IndexValue := c * r.IndexValue,
    Transaction := scalePrice c r.Transaction }

/-- The state `st'` is the state `st` with all prices and index values
multiplied by `c`, and the same divisor. -/
def Scaled {ι : Type} (c : ℚ) (st st' : CIVState ι) : Prop :=
  st'.transactionMap = st.transactionMap.map (fun kv => (kv.1, scalePrice c kv.2)) ∧
  st'.lastIndexValue = c * st.lastIndexValue ∧
  st'.lastDivisor = st.lastDivisor ∧
  st'.result = st.result.map (scaleRecord c)

/-! ## float64 arithmetic (IEEE-754 binary64, round to nearest, ties to even)

The second embedding of the arithmetic of `tami.go`: the values a `float64`
can hold and the operations `+`, `*`, `/` and `<` on them.  A finite value is
held as the rational it denotes; a zero is the positive zero (a negative zero
arises only from negative operands, which prices never are). -/

/-- The values of a `float64`. -/
inductive F64 where
  | fin (q : ℚ)
  | inf (negative : Bool)
  | nan
deriving DecidableEq

/-- The rational `2 ^ e`. -/
def F64.pow2 (e : Int) : ℚ :=
  if 0 ≤ e then ((2 ^ e.toNat : Nat) : ℚ) else 1 / ((2 ^ (-e).toNat : Nat) : ℚ)

/-- Bisection for the binary exponent: with `2 ^ lo ≤ a < 2 ^ hi` it returns
the `e` between them with `2 ^ e ≤ a < 2 ^ (e + 1)`. -/
def F64.exponentBetween (a : ℚ) : Nat → Int → Int → Int
  | 0, lo, _ => lo
  | fuel + 1, lo, hi =>
    if hi ≤ lo + 1 then lo
    else
      let mid := (lo + hi) / 2
      if F64.pow2 mid ≤ a then F64.exponentBetween a fuel mid hi
      else F64.exponentBetween a fuel lo mid

/-- The exponent of the binade of `a > 0`, not below the least normal
exponent -1022 (below it the values are subnormal, spaced `2 ^ -1074`). -/
def F64.exponent (a : ℚ) : Int :=
  if a < F64.pow2 (-1022) then -1022 else F64.exponentBetween a 12 (-1022) 1024

/-- The integer nearest to `q ≥ 0`, the even one of two equally near. -/
def F64.roundHalfEven (q : ℚ) : Int :=
  let f := ⌊q⌋
  if q - f < 1 / 2 then f
  else if 1 / 2 < q - f then f + 1
  else if f % 2 = 0 then f else f + 1

/-- The `float64` nearest to the rational `q`: 53 significant bits, exponents
from -1022 to 1023, overflow to an infinity. -/
def F64.round (q : ℚ) : F64 :=
  if q = 0 then F64.fin 0
  else if F64.pow2 1024 ≤ |q| then F64.inf (decide (q < 0))
  else
    let quantum := F64.pow2 (F64.exponent |q| - 52)
    let v := (F64.roundHalfEven (|q| / quantum) : ℚ) * quantum
    if F64.pow2 1024 ≤ v then F64.inf (decide (q < 0))
    else F64.fin (if q < 0 then -v else v)

/-- The sum `x + y` of two `float64`. -/
def F64.add : F64 → F64 → F64
  | F64.nan, _ => F64.nan
  | _, F64.nan => F64.nan
  | F64.inf s, F64.inf s' => if s = s' then F64.inf s else F64.nan
  | F64.inf s, F64.fin _ => F64.inf s
  | F64.fin _, F64.inf s => F64.inf s
  | F64.fin a, F64.fin b => F64.round (a + b)

/-- The product `x * y` of two `float64`. -/
def F64.mul : F64 → F64 → F64
  | F64.nan, _ => F64.nan
  | _, F64.nan => F64.nan
  | F64.inf s, F64.inf s' => F64.inf (xor s s')
  | F64.inf s, F64.fin b => if b = 0 then F64.nan else F64.inf (xor s (decide (b < 0)))
  | F64.fin a, F64.inf s => if a = 0 then F64.nan else F64.inf (xor (decide (a < 0)) s)
  | F64.fin a, F64.fin b => F64.round (a * b)

/-- The quotient `x / y` of two `float64`. -/
def F64.div : F64 → F64 → F64
  | F64.nan, _ => F64.nan
  | _, F64.nan => F64.nan
  | F64.inf _, F64.inf _ => F64.nan
  | F64.inf s, F64.fin b => F64.inf (xor s (decide (b < 0)))
  | F64.fin _, F64.inf _ => F64.fin 0
  | F64.fin a, F64.fin b =>
    if b = 0 then (if a = 0 then F64.nan else F64.inf (decide (a < 0)))
    else F64.round (a / b)

/-- The comparison `x < y` of two `float64`: false when either is NaN. -/
def F64.lt : F64 → F64 → Bool
  | F64.nan, _ => false
  | _, F64.nan => false
  | F64.inf s, F64.inf s' => s && !s'
  | F64.inf s, F64.fin _ => s
  | F64.fin _, F64.inf s => !s
  | F64.fin a, F64.fin b => decide (a < b)

/-! ## The pipeline in float64 arithmetic

The functions of tami.go from `CreateIndexValueHistory` on, with the
arithmetic of the source run in `F64`.  Prices enter as the `float64` nearest
to `Transaction.Price`; sorting and filtering do not compute with prices and
are the functions above. -/

/-- Source type `IndexValueHistoryItem`, its `float64` fields in `F64`. -/
structure IndexValueHistoryItemF64 (ι : Type) where
  Price : F64
  ItemID : ι
  IndexValue : F64
  Transaction : Transaction ι
deriving DecidableEq

/-- Source type `IndexValueHistoryItemWithRatio`, in `F64`. -/
structure IndexValueHistoryItemWithRatioF64 (ι : Type) where
  IndexValueHistoryItem : IndexValueHistoryItemF64 ι
  IndexRatio : F64
deriving DecidableEq

/-- The variables of `CreateIndexValueHistory` that live across iterations,
in `F64`. -/
structure CIVStateF64 (ι : Type) where
  transactionMap : GoMap ι (Transaction ι)
  lastIndexValue : F64
  lastDivisor : F64
  result : List (IndexValueHistoryItemF64 ι)

/-- The loop body of `CreateIndexValueHistory` (lines 102-144) at loop index
`i`, in `F64`. -/
def civStepF64 {ι : Type} [DecidableEq ι] (ord : RangeOrder) (i : Nat) (st : CIVStateF64 ι)
    (transaction : Transaction ι) : CIVStateF64 ι :=
  let isFirstSale := !(GoMap.lookup st.transactionMap transaction.ItemID).isSome
  let transactionMap := GoMap.store st.transactionMap transaction.ItemID transaction
  let itemCount := GoMap.len transactionMap
  let allLastSoldValue :=
    (ord.shuffle transactionMap).foldl (fun acc kv => F64.add acc (F64.round kv.2.Price))
      (F64.fin 0)
  let indexValue :=
    F64.div allLastSoldValue (F64.mul (F64.round (itemCount : ℚ)) st.lastDivisor)
  if i = 0 then
    { transactionMap := transactionMap
      lastIndexValue := indexValue
      lastDivisor := st.lastDivisor
      result := st.result ++
        [{ ItemID := transaction.ItemID, Price := F64.round transaction.Price,
           IndexValue := indexValue, Transaction := transaction }] }
  else
    let nextDivisor :=
      if isFirstSale then F64.mul st.lastDivisor (F64.div indexValue st.lastIndexValue)
      else st.lastDivisor
    let weightedIndexValue :=
      F64.div allLastSoldValue (F64.mul (F64.round (itemCount : ℚ)) nextDivisor)
    { transactionMap := transactionMap
      lastIndexValue := weightedIndexValue
      lastDivisor := nextDivisor
      result := st.result ++
        [{ ItemID := transaction.ItemID, Price := F64.round transaction.Price,
           IndexValue := weightedIndexValue, Transaction := transaction }] }

/-- The loop of `CreateIndexValueHistory` entered at index `i`, in `F64`. -/
def civLoopF64 {ι : Type} [DecidableEq ι] (ord : RangeOrder) :
    Nat → CIVStateF64 ι → List (Transaction ι) → CIVStateF64 ι
  | _, st, [] => st
  | i, st, transaction :: rest => civLoopF64 ord (i + 1) (civStepF64 ord i st transaction) rest

/-- Source function `CreateIndexValueHistory`, in `F64`. -/
def CreateIndexValueHistoryF64 {ι : Type} [DecidableEq ι] (ord : RangeOrder)
    (transactionHistory : List (Transaction ι)) : List (IndexValueHistoryItemF64 ι) :=
  (civLoopF64 ord 0
    { transactionMap := [], lastIndexValue := F64.fin 0, lastDivisor := F64.fin 1, result := [] }
    transactionHistory).result

/-- Source function `GetIndexValue`, in `F64`. -/
def GetIndexValueF64 {ι : Type} (indexValueHistory : List (IndexValueHistoryItemF64 ι)) : F64 :=
  if h : indexValueHistory.length = 0 then F64.fin 0
  else (indexValueHistory.get ⟨indexValueHistory.length - 1, by omega⟩).IndexValue

/-- Source function `GetIndexRatios`, in `F64`. -/
def GetIndexRatiosF64 {ι : Type} [DecidableEq ι] (ord : RangeOrder)
    (indexValueHistory : List (IndexValueHistoryItemF64 ι)) :
    List (IndexValueHistoryItemWithRatioF64 ι) :=
  let lastSaleMap : GoMap ι (IndexValueHistoryItemF64 ι) :=
    indexValueHistory.foldl (fun m item => GoMap.store m item.ItemID item) []
  (ord.shuffle lastSaleMap).map (fun kv =>
    { IndexValueHistoryItem :=
        { Price := kv.2.Price, ItemID := kv.2.ItemID, IndexValue := kv.2.IndexValue,
          Transaction := kv.2.Transaction }
      IndexRatio := F64.div kv.2.Price kv.2.IndexValue })

/-- Source function `TAMI`, in `F64`. -/
def TAMIF64 {ι : Type} [DecidableEq ι] (ord : RangeOrder) (oneYearAgo sixMonthsAgo : Int)
    (transactionHistory : List (Transaction ι)) : F64 :=
  let sortedTransactions := SortTransactions transactionHistory
  let validTransactions := FilterValidTransactions oneYearAgo sixMonthsAgo sortedTransactions
  let indexValueHistory := CreateIndexValueHistoryF64 ord validTransactions
  let indexValue := GetIndexValueF64 indexValueHistory
  let indexRatios := GetIndexRatiosF64 ord indexValueHistory
  let timeAdjustedValues := indexRatios.map (fun item => F64.mul indexValue item.IndexRatio)
  timeAdjustedValues.foldl (fun timeAdjustedMarketIndex v => F64.add timeAdjustedMarketIndex v)
    (F64.fin 0)

/-! # Lemmas -/

/-! ## Go maps -/

section GoMapLemmas
variable {ι V : Type} [DecidableEq ι]

theorem GoMap.lookup_store (m : GoMap ι V) (k k' : ι) (v : V) :
    GoMap.lookup (GoMap.store m k v) k' = if k = k' then some v else GoMap.lookup m k' := by
  induction m with
  | nil => simp [GoMap.store, GoMap.lookup]
  | cons p rest ih =>
    obtain ⟨a, b⟩ := p
    by_cases h : a = k
    · subst h
      by_cases h2 : a = k' <;> simp [GoMap.store, GoMap.lookup, h2]
    · by_cases h2 : a = k'
      · have : ¬ k = k' := fun e => h (h2.trans e.symm)
        subst h2
        simp [GoMap.store, GoMap.lookup, h, this]
      · simp [GoMap.store, GoMap.lookup, h, h2, ih]

/-- The keys of a map, in stored order. -/
theorem GoMap.keys_store (m : GoMap ι V) (k : ι) (v : V) :
    (GoMap.store m k v).map Prod.fst =
      if k ∈ m.map Prod.fst then m.map Prod.fst else m.map Prod.fst ++ [k] := by
  induction m with
  | nil => simp [GoMap.store]
  | cons p rest ih =>
    obtain ⟨a, b⟩ := p
    by_cases h : a = k
    · subst h; simp [GoMap.store]
    · have h' : ¬ k = a := fun e => h e.symm
      simp only [GoMap.store, h, if_false, List.map_cons, ih, List.mem_cons, h', false_or]
      split <;> simp

theorem GoMap.nodup_keys_store (m : GoMap ι V) (k : ι) (v : V)
    (hm : (m.map Prod.fst).Nodup) : ((GoMap.store m k v).map Prod.fst).Nodup := by
  rw [GoMap.keys_store]
  split
  · exact hm
  · rename_i h
    exact List.Nodup.append hm (List.nodup_singleton k) (by simpa using h)

theorem GoMap.mem_keys_store (m : GoMap ι V) (k k' : ι) (v : V) :
    k' ∈ (GoMap.store m k v).map Prod.fst ↔ k' = k ∨ k' ∈ m.map Prod.fst := by
  rw [GoMap.keys_store]
  split
  · rename_i h
    constructor
    · exact fun h' => Or.inr h'
    · rintro (rfl | h')
      · exact h
      · exact h'
  · simp [or_comm]

theorem GoMap.lookup_eq_none_iff (m : GoMap ι V) (k : ι) :
    GoMap.lookup m k = none ↔ k ∉ m.map Prod.fst := by
  induction m with
  | nil => simp [GoMap.lookup]
  | cons p rest ih =>
    obtain ⟨a, b⟩ := p
    by_cases h : a = k
    · simp [GoMap.lookup, h]
    · have h' : ¬ k = a := fun e => h e.symm
      simp [GoMap.lookup, h, h', ih]

theorem GoMap.mem_of_lookup (m : GoMap ι V) (k : ι) (v : V)
    (h : GoMap.lookup m k = some v) : (k, v) ∈ m := by
  induction m with
  | nil => simp [GoMap.lookup] at h
  | cons p rest ih =>
    obtain ⟨a, b⟩ := p
    by_cases hk : a = k
    · simp [GoMap.lookup, hk] at h; simp [hk, h]
    · simp [GoMap.lookup, hk] at h; exact List.mem_cons_of_mem _ (ih h)

theorem GoMap.lookup_of_mem (m : GoMap ι V) (hm : (m.map Prod.fst).Nodup) (k : ι) (v : V)
    (h : (k, v) ∈ m) : GoMap.lookup m k = some v := by
  induction m with
  | nil => simp at h
  | cons p rest ih =>
    obtain ⟨a, b⟩ := p
    simp only [List.map_cons, List.nodup_cons] at hm
    rcases List.mem_cons.1 h with e | e
    · cases e; simp [GoMap.lookup]
    · have : a ≠ k := by
        rintro rfl
        exact hm.1 (List.mem_map.2 ⟨(a, v), e, rfl⟩)
      simp [GoMap.lookup, this, ih hm.2 e]

end GoMapLemmas

/-! ## Sorting -/

instance notBefore_total {ι : Type} :
    IsTotal (Transaction ι) (fun a b => ¬ before b a) :=
  ⟨fun a b => by unfold before; omega⟩

instance notBefore_trans {ι : Type} :
    IsTrans (Transaction ι) (fun a b => ¬ before b a) :=
  ⟨fun a b c => by unfold before; omega⟩

section FilterLemmas
variable {ι : Type} [DecidableEq ι]

theorem getD_lookup_filterVisit (y s : Int) (m : GoMap ι Include) (tx : Transaction ι) (a : ι) :
    (GoMap.lookup (filterVisit y s m tx) a).getD Include.fresh =
      if tx.ItemID = a then visitInclude y s ((GoMap.lookup m a).getD Include.fresh) tx
      else (GoMap.lookup m a).getD Include.fresh := by
  unfold filterVisit
  by_cases h : tx.ItemID = a
  · subst h
    cases hl : GoMap.lookup m tx.ItemID <;> simp [GoMap.lookup_store, hl]
  · cases hl : GoMap.lookup m tx.ItemID <;> simp [GoMap.lookup_store, hl, h]

theorem getD_lookup_inclusionLoop (y s : Int) (txs : List (Transaction ι))
    (m : GoMap ι Include) (a : ι) :
    (GoMap.lookup (inclusionLoop y s m txs) a).getD Include.fresh =
      recordAfter y s ((GoMap.lookup m a).getD Include.fresh) txs a := by
  induction txs generalizing m with
  | nil => simp [inclusionLoop, recordAfter]
  | cons t rest ih =>
    have := ih (filterVisit y s m t)
    simp only [inclusionLoop, List.foldl_cons] at this ⊢
    rw [this, getD_lookup_filterVisit]
    by_cases h : t.ItemID = a
    · simp [recordAfter, h]
    · simp [recordAfter, h]

theorem isValidIn_eq (m : GoMap ι Include) (a : ι) :
    isValidIn m a = ((GoMap.lookup m a).getD Include.fresh).IsValid := by
  unfold isValidIn
  cases GoMap.lookup m a <;> simp [Include.fresh]

/-- The output of the filter is the input filtered by the final flag. -/
theorem FilterValidTransactions_eq_filter (y s : Int) (txs : List (Transaction ι)) :
    FilterValidTransactions y s txs =
      txs.filter (fun t => (recordAfter y s Include.fresh txs t.ItemID).IsValid) := by
  unfold FilterValidTransactions
  simp only [isValidIn_eq, getD_lookup_inclusionLoop]
  simp [GoMap.lookup]

theorem visitInclude_of_valid {κ : Type} (y s : Int) (inc : Include) (t : Transaction κ)
    (h : inc.IsValid = true) : visitInclude y s inc t = inc := by
  simp [visitInclude, h]

theorem foldl_visitInclude_of_valid {κ : Type} (y s : Int) (l : List (Transaction κ))
    (inc : Include) (h : inc.IsValid = true) : l.foldl (visitInclude y s) inc = inc := by
  induction l with
  | nil => rfl
  | cons t rest ih => simp [List.foldl_cons, visitInclude_of_valid y s inc t h, ih]

/-- On a chronological list the final flag is the window condition. -/
theorem foldl_visitInclude_valid_iff {κ : Type} (y s : Int) (hys : y ≤ s)
    (l : List (Transaction κ)) (hl : l.Pairwise (fun a b => a.Timestamp ≤ b.Timestamp))
    (inc : Include) (hinc : inc.IsValid = false) :
    (l.foldl (visitInclude y s) inc).IsValid = true ↔
      2 ≤ inc.PastYearSaleCount + l.countP (fun t => decide (¬ t.Timestamp < y)) ∧
      1 ≤ l.countP (fun t => decide (¬ t.Timestamp < s)) := by
  induction l generalizing inc with
  | nil => simp [hinc]
  | cons t rest ih =>
    rw [List.pairwise_cons] at hl
    obtain ⟨ht, hrest⟩ := hl
    simp only [List.foldl_cons]
    by_cases h1 : t.Timestamp < y
    · have h2 : t.Timestamp < s := by omega
      have hv : visitInclude y s inc t = inc := by simp [visitInclude, hinc, h1]
      rw [hv, ih hrest inc hinc]
      simp [List.countP_cons, h1, h2]
    · by_cases h2 : t.Timestamp < s
      · have hv : visitInclude y s inc t =
            { inc with PastYearSaleCount := inc.PastYearSaleCount + 1 } := by
          simp [visitInclude, hinc, h1, h2]
        rw [hv, ih hrest ⟨inc.PastYearSaleCount + 1, inc.HasSaleInLastSixMonths, inc.IsValid⟩ hinc]
        simp only [List.countP_cons, h1, h2, not_false_eq_true, decide_True, if_true,
          not_true_eq_false, decide_False, Bool.false_eq_true, if_false]
        constructor <;> rintro ⟨ha, hb⟩ <;> exact ⟨by omega, by omega⟩
      · by_cases h3 : inc.PastYearSaleCount + 1 ≥ 2
        · have hv : (visitInclude y s inc t).IsValid = true := by
            simp [visitInclude, hinc, h1, h2, h3]
          rw [foldl_visitInclude_of_valid y s rest _ hv]
          simp only [hv, true_iff, List.countP_cons, h1, h2, not_false_eq_true, decide_True,
            if_true]
          exact ⟨by omega, by omega⟩
        · have hv : visitInclude y s inc t =
              { inc with PastYearSaleCount := inc.PastYearSaleCount + 1,
                         HasSaleInLastSixMonths := true } := by
            simp [visitInclude, hinc, h1, h2, h3]
          rw [hv, ih hrest ⟨inc.PastYearSaleCount + 1, true, inc.IsValid⟩ hinc]
          have hall : rest.countP (fun t => decide (¬ t.Timestamp < s)) = rest.length := by
            rw [List.countP_eq_length]
            intro u hu
            have := ht u hu
            simp only [decide_eq_true_eq]
            omega
          have hall' : rest.countP (fun t => decide (¬ t.Timestamp < y)) = rest.length := by
            rw [List.countP_eq_length]
            intro u hu
            have := ht u hu
            simp only [decide_eq_true_eq]
            omega
          simp only [List.countP_cons, h1, h2, not_false_eq_true, decide_True, if_true, hall,
            hall']
          constructor <;> rintro ⟨ha, hb⟩ <;> exact ⟨by omega, by omega⟩

theorem countP_filter_item (p : Transaction ι → Prop) [DecidablePred p] (a : ι)
    (txs : List (Transaction ι)) :
    (txs.filter (fun t => t.ItemID = a)).countP (fun t => decide (p t)) =
      txs.countP (fun t => decide (t.ItemID = a ∧ p t)) := by
  rw [List.countP_filter]
  congr 1
  funext t
  by_cases h : t.ItemID = a <;> simp [h]

theorem recordAfter_valid_iff (y s : Int) (hys : y ≤ s) (txs : List (Transaction ι))
    (hs : txs.Pairwise (fun a b => a.Timestamp ≤ b.Timestamp)) (a : ι) :
    (recordAfter y s Include.fresh txs a).IsValid = true ↔
      2 ≤ txs.countP (fun t => decide (t.ItemID = a ∧ ¬ t.Timestamp < y)) ∧
      1 ≤ txs.countP (fun t => decide (t.ItemID = a ∧ ¬ t.Timestamp < s)) := by
  unfold recordAfter
  rw [foldl_visitInclude_valid_iff y s hys _ (List.Pairwise.filter _ hs) Include.fresh rfl]
  rw [countP_filter_item, countP_filter_item]
  simp [Include.fresh]

end FilterLemmas

section CIVLemmas
variable {ι : Type} [DecidableEq ι]

theorem civLoop_append (ord : RangeOrder) (l1 l2 : List (Transaction ι)) (i : Nat)
    (st : CIVState ι) :
    civLoop ord i st (l1 ++ l2) = civLoop ord (i + l1.length) (civLoop ord i st l1) l2 := by
  induction l1 generalizing i st with
  | nil => simp [civLoop]
  | cons t rest ih =>
    have e : i + 1 + rest.length = i + (rest.length + 1) := by omega
    show civLoop ord (i + 1) (civStep ord i st t) (rest ++ l2) = _
    rw [ih, e]
    rfl

theorem civAfter_snoc (ord : RangeOrder) (l : List (Transaction ι)) (t : Transaction ι) :
    civAfter ord (l ++ [t]) = civStep ord l.length (civAfter ord l) t := by
  simp [civAfter, civLoop_append, civLoop]

theorem civStep_result (ord : RangeOrder) (i : Nat) (st : CIVState ι) (t : Transaction ι) :
    (civStep ord i st t).result = st.result ++
      [{ ItemID := t.ItemID, Price := t.Price,
         IndexValue := (civStep ord i st t).lastIndexValue, Transaction := t }] := by
  by_cases hi : i = 0 <;> simp [civStep, hi]

theorem civLoop_result (ord : RangeOrder) (l : List (Transaction ι)) (i : Nat)
    (st : CIVState ι) :
    ∃ X, (civLoop ord i st l).result = st.result ++ X ∧ X.length = l.length := by
  induction l generalizing i st with
  | nil => exact ⟨[], by simp [civLoop]⟩
  | cons t rest ih =>
    obtain ⟨X, hX, hlen⟩ := ih (i + 1) (civStep ord i st t)
    rw [civStep_result] at hX
    exact ⟨_ :: X, by simpa [civLoop] using hX, by simp [hlen]⟩

theorem foldl_add_eq_sum {α : Type} (f : α → ℚ) (l : List α) (a : ℚ) :
    l.foldl (fun acc x => acc + f x) a = a + (l.map f).sum := by
  induction l generalizing a with
  | nil => simp
  | cons x rest ih => simp [ih, add_assoc]

/-- The accumulated sum does not depend on the iteration order of the map. -/
theorem civAllLastSoldValue_eq (ord : RangeOrder) (st : CIVState ι) (t : Transaction ι) :
    civAllLastSoldValue ord st t = ((civMap st t).map (fun kv => kv.2.Price)).sum := by
  unfold civAllLastSoldValue
  rw [foldl_add_eq_sum (fun kv : ι × Transaction ι => kv.2.Price), zero_add]
  exact ((ord.perm (civMap st t)).map _).sum_eq

theorem GoMap.mem_store {V : Type} (m : GoMap ι V) (k : ι) (v : V) (kv : ι × V)
    (h : kv ∈ GoMap.store m k v) : kv = (k, v) ∨ kv ∈ m := by
  induction m with
  | nil => simpa [GoMap.store] using h
  | cons p rest ih =>
    obtain ⟨a, b⟩ := p
    by_cases hk : a = k
    · simp only [GoMap.store, hk, if_true, List.mem_cons] at h
      rcases h with h | h
      · exact Or.inl h
      · exact Or.inr (List.mem_cons_of_mem _ h)
    · simp only [GoMap.store, hk, if_false, List.mem_cons] at h
      rcases h with h | h
      · exact Or.inr (by simp [h])
      · rcases ih h with h | h
        · exact Or.inl h
        · exact Or.inr (List.mem_cons_of_mem _ h)

theorem GoMap.store_ne_nil {V : Type} (m : GoMap ι V) (k : ι) (v : V) :
    GoMap.store m k v ≠ [] := by
  cases m with
  | nil => simp [GoMap.store]
  | cons p rest =>
    obtain ⟨a, b⟩ := p
    by_cases hk : a = k <;> simp [GoMap.store, hk]

theorem civStep_map (ord : RangeOrder) (i : Nat) (st : CIVState ι) (t : Transaction ι) :
    (civStep ord i st t).transactionMap = civMap st t := by
  by_cases hi : i = 0 <;> simp [civStep, hi]

theorem CIVStruct_step (ord : RangeOrder) (l : List (Transaction ι)) (st : CIVState ι)
    (t : Transaction ι) (h : CIVStruct l st) :
    CIVStruct (l ++ [t]) (civStep ord l.length st t) := by
  obtain ⟨h1, h2, _⟩ := h
  refine ⟨fun a => ?_, ?_, fun _ => ?_⟩
  · rw [civStep_map, civMap, GoMap.lookup_store]
    by_cases ha : t.ItemID = a
    · simp [ha]
    · have ha' : ¬ a = t.ItemID := fun e => ha e.symm
      simp [ha, ha', h1 a]
  · rw [civStep_result]; simp [h2]
  · rw [civStep_result]; simp

theorem CIVStruct_after (ord : RangeOrder) (l : List (Transaction ι)) :
    CIVStruct l (civAfter ord l) := by
  induction l using List.reverseRecOn with
  | nil => exact ⟨fun a => by simp [civAfter, civLoop, civInit, GoMap.lookup],
      by simp [civAfter, civLoop, civInit], fun h => absurd rfl h⟩
  | append_singleton l t ih =>
    rw [civAfter_snoc]
    exact CIVStruct_step ord l _ t ih

theorem civAllLastSoldValue_pos (ord : RangeOrder) (st : CIVState ι) (t : Transaction ι)
    (hm : ∀ kv ∈ st.transactionMap, 0 < kv.2.Price) (ht : 0 < t.Price) :
    0 < civAllLastSoldValue ord st t := by
  rw [civAllLastSoldValue_eq]
  apply List.sum_pos
  · intro x hx
    obtain ⟨kv, hkv, rfl⟩ := List.mem_map.1 hx
    rcases GoMap.mem_store _ _ _ _ hkv with h | h
    · rw [h]; exact ht
    · exact hm kv h
  · simpa [civMap] using GoMap.store_ne_nil st.transactionMap t.ItemID t

theorem civItemCount_pos (st : CIVState ι) (t : Transaction ι) :
    (0 : ℚ) < (civItemCount st t : ℚ) := by
  have : 0 < civItemCount st t := by
    unfold civItemCount GoMap.len civMap
    exact List.length_pos.2 (GoMap.store_ne_nil _ _ _)
  exact_mod_cast this

theorem civIndexValue_pos (ord : RangeOrder) (st : CIVState ι) (t : Transaction ι)
    (hm : ∀ kv ∈ st.transactionMap, 0 < kv.2.Price) (ht : 0 < t.Price)
    (hd : 0 < st.lastDivisor) : 0 < civIndexValue ord st t :=
  div_pos (civAllLastSoldValue_pos ord st t hm ht) (mul_pos (civItemCount_pos st t) hd)

theorem civNextDivisor_pos (ord : RangeOrder) (st : CIVState ι) (t : Transaction ι)
    (hm : ∀ kv ∈ st.transactionMap, 0 < kv.2.Price) (ht : 0 < t.Price)
    (hd : 0 < st.lastDivisor) (hl : 0 < st.lastIndexValue) : 0 < civNextDivisor ord st t := by
  unfold civNextDivisor
  split
  · exact mul_pos hd (div_pos (civIndexValue_pos ord st t hm ht hd) hl)
  · exact hd

theorem civWeightedIndexValue_pos (ord : RangeOrder) (st : CIVState ι) (t : Transaction ι)
    (hm : ∀ kv ∈ st.transactionMap, 0 < kv.2.Price) (ht : 0 < t.Price)
    (hd : 0 < st.lastDivisor) (hl : 0 < st.lastIndexValue) :
    0 < civWeightedIndexValue ord st t :=
  div_pos (civAllLastSoldValue_pos ord st t hm ht)
    (mul_pos (civItemCount_pos st t) (civNextDivisor_pos ord st t hm ht hd hl))

theorem CIVPos_step (ord : RangeOrder) (l : List (Transaction ι)) (st : CIVState ι)
    (t : Transaction ι) (h : CIVPos l st) (ht : 0 < t.Price) :
    CIVPos (l ++ [t]) (civStep ord l.length st t) := by
  obtain ⟨hm, hd, hl, hr⟩ := h
  have hmap : ∀ kv ∈ (civStep ord l.length st t).transactionMap, 0 < kv.2.Price := by
    intro kv hkv
    rw [civStep_map] at hkv
    rcases GoMap.mem_store _ _ _ _ hkv with h | h
    · rw [h]; exact ht
    · exact hm kv h
  by_cases h0 : l.length = 0
  · have hlast : 0 < (civStep ord l.length st t).lastIndexValue := by
      simpa [civStep, h0] using civIndexValue_pos ord st t hm ht hd
    refine ⟨hmap, by simpa [civStep, h0] using hd, fun _ => hlast, ?_⟩
    intro r hr'
    rw [civStep_result, List.mem_append] at hr'
    rcases hr' with h | h
    · exact hr r h
    · rw [List.mem_singleton] at h; rw [h]; exact hlast
  · have hne : l ≠ [] := fun e => h0 (by simp [e])
    have hlast : 0 < (civStep ord l.length st t).lastIndexValue := by
      simpa [civStep, h0] using civWeightedIndexValue_pos ord st t hm ht hd (hl hne)
    refine ⟨hmap, ?_, fun _ => hlast, ?_⟩
    · simpa [civStep, h0] using civNextDivisor_pos ord st t hm ht hd (hl hne)
    · intro r hr'
      rw [civStep_result, List.mem_append] at hr'
      rcases hr' with h | h
      · exact hr r h
      · rw [List.mem_singleton] at h; rw [h]; exact hlast

theorem CIVPos_after (ord : RangeOrder) (l : List (Transaction ι))
    (hp : ∀ t ∈ l, 0 < t.Price) : CIVPos l (civAfter ord l) := by
  induction l using List.reverseRecOn with
  | nil => exact ⟨by simp [civAfter, civLoop, civInit], by simp [civAfter, civLoop, civInit],
      fun h => absurd rfl h, by simp [civAfter, civLoop, civInit]⟩
  | append_singleton l t ih =>
    rw [civAfter_snoc]
    exact CIVPos_step ord l _ t (ih (fun u hu => hp u (List.mem_append_left _ hu)))
      (hp t (by simp))

/-- Re-basing: with non-zero operands the weighted value of a first sale is
the previous index value. -/
theorem civWeightedIndexValue_rebase (ord : RangeOrder) (st : CIVState ι) (t : Transaction ι)
    (hfirst : civIsFirstSale st t = true) (hA : civAllLastSoldValue ord st t ≠ 0)
    (hd : st.lastDivisor ≠ 0) :
    civWeightedIndexValue ord st t = st.lastIndexValue := by
  have hn : (civItemCount st t : ℚ) ≠ 0 := ne_of_gt (civItemCount_pos st t)
  unfold civWeightedIndexValue civNextDivisor civIndexValue
  rw [if_pos hfirst]
  field_simp
  ring

/-- The history splits at every position: the records of the transactions
before it, the record of the transaction at it, and one record for each
transaction after it. -/
theorem CreateIndexValueHistory_split (ord : RangeOrder) (l1 l2 : List (Transaction ι))
    (t : Transaction ι) :
    ∃ X, CreateIndexValueHistory ord (l1 ++ t :: l2) =
        (civAfter ord l1).result ++
          ({ ItemID := t.ItemID, Price := t.Price,
             IndexValue := (civStep ord l1.length (civAfter ord l1) t).lastIndexValue,
             Transaction := t } : IndexValueHistoryItem ι) :: X ∧
      X.length = l2.length := by
  have e : l1 ++ t :: l2 = (l1 ++ [t]) ++ l2 := by simp
  obtain ⟨X, hX, hlen⟩ := civLoop_result ord l2 (0 + (l1 ++ [t]).length) (civAfter ord (l1 ++ [t]))
  refine ⟨X, ?_, hlen⟩
  unfold CreateIndexValueHistory
  rw [e, civLoop_append]
  rw [civAfter] at hX
  rw [hX, ← civAfter, civAfter_snoc, civStep_result]
  simp

theorem CreateIndexValueHistory_length (ord : RangeOrder) (txs : List (Transaction ι)) :
    (CreateIndexValueHistory ord txs).length = txs.length :=
  (CIVStruct_after ord txs).2.1

theorem CreateIndexValueHistory_pos (ord : RangeOrder) (txs : List (Transaction ι))
    (hpos : ∀ t ∈ txs, 0 < t.Price) : ∀ r ∈ CreateIndexValueHistory ord txs, 0 < r.IndexValue :=
  (CIVPos_after ord txs hpos).2.2.2

end CIVLemmas

section SingleItem
variable {ι : Type} [DecidableEq ι]

theorem civStep_single (ord : RangeOrder) (a : ι) (i : Nat) (st : CIVState ι)
    (t : Transaction ι) (ht : t.ItemID = a)
    (hmap : (i = 0 ∧ st.transactionMap = []) ∨ (i ≠ 0 ∧ ∃ u, st.transactionMap = [(a, u)]))
    (hd : st.lastDivisor = 1) :
    (civStep ord i st t).transactionMap = [(a, t)] ∧ (civStep ord i st t).lastDivisor = 1 ∧
      (civStep ord i st t).lastIndexValue = t.Price := by
  have hm : civMap st t = [(a, t)] := by
    rcases hmap with ⟨_, h⟩ | ⟨_, u, h⟩ <;> simp [civMap, h, GoMap.store, ht]
  have hA : civAllLastSoldValue ord st t = t.Price := by
    rw [civAllLastSoldValue_eq, hm]; simp
  have hn : civItemCount st t = 1 := by simp [civItemCount, GoMap.len, hm]
  have hI : civIndexValue ord st t = t.Price := by
    simp [civIndexValue, hA, hn, hd]
  by_cases hi : i = 0
  · simp [civStep, hi, hm, hd, hI]
  · have hfirst : civIsFirstSale st t = false := by
      rcases hmap with ⟨h0, _⟩ | ⟨_, u, h⟩
      · exact absurd h0 hi
      · simp [civIsFirstSale, h, GoMap.lookup, ht]
    have hN : civNextDivisor ord st t = 1 := by simp [civNextDivisor, hfirst, hd]
    have hW : civWeightedIndexValue ord st t = t.Price := by
      simp [civWeightedIndexValue, hA, hn, hN]
    simp [civStep, hi, hm, hN, hW]

theorem civAfter_single (ord : RangeOrder) (a : ι) (l : List (Transaction ι))
    (hsame : ∀ t ∈ l, t.ItemID = a) :
    (l = [] → (civAfter ord l).transactionMap = []) ∧
    (l ≠ [] → ∃ u, (civAfter ord l).transactionMap = [(a, u)]) ∧
    (civAfter ord l).lastDivisor = 1 ∧
    ∀ r ∈ (civAfter ord l).result, r.IndexValue = r.Transaction.Price := by
  induction l using List.reverseRecOn with
  | nil => simp [civAfter, civLoop, civInit]
  | append_singleton l t ih =>
    obtain ⟨h1, h2, h3, h4⟩ := ih (fun u hu => hsame u (List.mem_append_left _ hu))
    have hmap : (l.length = 0 ∧ (civAfter ord l).transactionMap = []) ∨
        (l.length ≠ 0 ∧ ∃ u, (civAfter ord l).transactionMap = [(a, u)]) := by
      by_cases hl : l = []
      · exact Or.inl ⟨by simp [hl], h1 hl⟩
      · exact Or.inr ⟨by simpa using hl, h2 hl⟩
    obtain ⟨s1, s2, s3⟩ := civStep_single ord a l.length (civAfter ord l) t
      (hsame t (by simp)) hmap h3
    rw [civAfter_snoc]
    refine ⟨fun h => absurd h (by simp), fun _ => ⟨t, s1⟩, s2, ?_⟩
    intro r hr
    rw [civStep_result, List.mem_append] at hr
    rcases hr with hr | hr
    · exact h4 r hr
    · rw [List.mem_singleton] at hr
      rw [hr]
      exact s3

theorem civAfter_result_transactions (ord : RangeOrder) (l : List (Transaction ι)) :
    (civAfter ord l).result.map (fun r => r.Transaction) = l := by
  induction l using List.reverseRecOn with
  | nil => simp [civAfter, civLoop, civInit]
  | append_singleton l t ih => rw [civAfter_snoc, civStep_result]; simp [ih]

end SingleItem

section RatioLemmas
variable {ι : Type} [DecidableEq ι]

theorem lastSaleMap_snoc (h : List (IndexValueHistoryItem ι)) (r : IndexValueHistoryItem ι) :
    lastSaleMap (h ++ [r]) = GoMap.store (lastSaleMap h) r.ItemID r := by
  simp [lastSaleMap, List.foldl_append]

theorem lookup_lastSaleMap (h : List (IndexValueHistoryItem ι)) (a : ι) :
    GoMap.lookup (lastSaleMap h) a = lastRecordOf h a := by
  induction h using List.reverseRecOn with
  | nil => simp [lastSaleMap, lastRecordOf, GoMap.lookup]
  | append_singleton h r ih =>
    rw [lastSaleMap_snoc, GoMap.lookup_store, ih]
    unfold lastRecordOf
    by_cases hr : r.ItemID = a
    · simp [List.filter_append, hr]
    · simp [List.filter_append, hr]

theorem nodup_keys_lastSaleMap (h : List (IndexValueHistoryItem ι)) :
    ((lastSaleMap h).map Prod.fst).Nodup := by
  induction h using List.reverseRecOn with
  | nil => simp [lastSaleMap]
  | append_singleton h r ih =>
    rw [lastSaleMap_snoc]
    exact GoMap.nodup_keys_store _ _ _ ih

theorem mem_keys_lastSaleMap (h : List (IndexValueHistoryItem ι)) (a : ι) :
    a ∈ (lastSaleMap h).map Prod.fst ↔ a ∈ h.map (fun r => r.ItemID) := by
  induction h using List.reverseRecOn with
  | nil => simp [lastSaleMap]
  | append_singleton h r ih =>
    rw [lastSaleMap_snoc, GoMap.mem_keys_store, ih]
    simp [or_comm]

theorem lastRecordOf_of_mem_lastSaleMap (h : List (IndexValueHistoryItem ι))
    (kv : ι × IndexValueHistoryItem ι) (hkv : kv ∈ lastSaleMap h) :
    lastRecordOf h kv.1 = some kv.2 := by
  rw [← lookup_lastSaleMap]
  exact GoMap.lookup_of_mem _ (nodup_keys_lastSaleMap h) kv.1 kv.2 hkv

theorem mem_of_lastRecordOf (h : List (IndexValueHistoryItem ι)) (a : ι)
    (v : IndexValueHistoryItem ι) (hv : lastRecordOf h a = some v) : v ∈ h ∧ v.ItemID = a := by
  have := List.mem_of_mem_getLast? (Option.mem_def.2 hv)
  simpa using this

theorem keys_lastSaleMap_perm (h : List (IndexValueHistoryItem ι)) :
    ((lastSaleMap h).map Prod.fst).Perm (h.map (fun r => r.ItemID)).dedup := by
  rw [List.perm_ext_iff_of_nodup (nodup_keys_lastSaleMap h) (List.nodup_dedup _)]
  intro a
  rw [mem_keys_lastSaleMap, List.mem_dedup]

theorem GetIndexValue_eq_final {κ : Type} (h : List (IndexValueHistoryItem κ)) :
    GetIndexValue h = finalIndexValue h := by
  induction h using List.reverseRecOn with
  | nil => simp [GetIndexValue, finalIndexValue]
  | append_singleton h r _ => simp [GetIndexValue, finalIndexValue]

/-- The aggregation of `TAMI` over the ratios is the sum of the time-adjusted
values over the distinct items, whatever the iteration order of the map. -/
theorem aggregate_eq_sum (ord : RangeOrder) (h : List (IndexValueHistoryItem ι)) :
    ((GetIndexRatios ord h).map (fun item => GetIndexValue h * item.IndexRatio)).foldl
        (fun timeAdjustedMarketIndex v => timeAdjustedMarketIndex + v) 0 =
      ∑ a ∈ (h.map (fun r => r.ItemID)).toFinset, timeAdjustedValue h a := by
  have hfin : (h.map (fun r => r.ItemID)).toFinset = ((lastSaleMap h).map Prod.fst).toFinset := by
    ext a
    simp only [List.mem_toFinset]
    exact (mem_keys_lastSaleMap h a).symm
  rw [hfin, List.sum_toFinset _ (nodup_keys_lastSaleMap h), List.map_map]
  have hfold := foldl_add_eq_sum (fun v : ℚ => v)
    ((GetIndexRatios ord h).map (fun item => GetIndexValue h * item.IndexRatio)) 0
  simp only [List.map_id'] at hfold
  rw [hfold, zero_add]
  unfold GetIndexRatios
  rw [List.map_map]
  rw [((ord.perm (lastSaleMap h)).map _).sum_eq]
  congr 1
  apply List.map_congr_left
  intro kv hkv
  simp only [Function.comp, timeAdjustedValue, lastRecordOf_of_mem_lastSaleMap h kv hkv,
    withRatio, GetIndexValue_eq_final]

end RatioLemmas

theorem sort_mock (d1 d2 d3 m1 w6 y2 : Int)
    (h1 : y2 < w6) (h2 : w6 < m1) (h3 : m1 < d3) (h4 : d3 < d2) (h5 : d2 < d1) :
    SortTransactions (mockTransactionHistory d1 d2 d3 m1 w6 y2) =
      [⟨612, "Nyx", y2⟩, ⟨612, "Mars", w6⟩, ⟨700, "Hyacinth", m1⟩, ⟨500, "Lavender", d3⟩,
       ⟨400, "Hyacinth", d3⟩, ⟨1200, "Mars", d2⟩, ⟨1200, "Nyx", d1⟩] := by
  have a1 : y2 ≤ w6 := by omega
  have a2 : y2 ≤ m1 := by omega
  have a3 : y2 ≤ d3 := by omega
  have a4 : y2 ≤ d2 := by omega
  have a5 : y2 ≤ d1 := by omega
  have a6 : w6 ≤ m1 := by omega
  have a7 : w6 ≤ d3 := by omega
  have a8 : w6 ≤ d2 := by omega
  have a9 : w6 ≤ d1 := by omega
  have a10 : m1 ≤ d3 := by omega
  have a11 : m1 ≤ d2 := by omega
  have a12 : m1 ≤ d1 := by omega
  have a13 : d3 ≤ d2 := by omega
  have a14 : d3 ≤ d1 := by omega
  have a15 : d2 ≤ d1 := by omega
  have b1 : ¬ w6 ≤ y2 := by omega
  have b2 : ¬ m1 ≤ y2 := by omega
  have b3 : ¬ d3 ≤ y2 := by omega
  have b4 : ¬ d2 ≤ y2 := by omega
  have b5 : ¬ d1 ≤ y2 := by omega
  have b6 : ¬ m1 ≤ w6 := by omega
  have b7 : ¬ d3 ≤ w6 := by omega
  have b8 : ¬ d2 ≤ w6 := by omega
  have b9 : ¬ d1 ≤ w6 := by omega
  have b10 : ¬ d3 ≤ m1 := by omega
  have b11 : ¬ d2 ≤ m1 := by omega
  have b12 : ¬ d1 ≤ m1 := by omega
  have b13 : ¬ d2 ≤ d3 := by omega
  have b14 : ¬ d1 ≤ d3 := by omega
  have b15 : ¬ d1 ≤ d2 := by omega
  simp [SortTransactions, sortSlice, before, mockTransactionHistory, List.insertionSort,
    List.orderedInsert, a1, a2, a3, a4, a5, a6, a7, a8, a9, a10, a11, a12, a13, a14, a15,
    b1, b2, b3, b4, b5, b6, b7, b8, b9, b10, b11, b12, b13, b14, b15]

theorem filter_sorted_mock (y s d1 d2 d3 m1 w6 y2 : Int) (h0 : y2 < y) (hys : y ≤ s) (hs : s ≤ w6)
    (h2 : w6 < m1) (h3 : m1 < d3) (h4 : d3 < d2) (h5 : d2 < d1) :
    FilterValidTransactions y s
      [⟨612, "Nyx", y2⟩, ⟨612, "Mars", w6⟩, ⟨700, "Hyacinth", m1⟩, ⟨500, "Lavender", d3⟩,
       ⟨400, "Hyacinth", d3⟩, ⟨1200, "Mars", d2⟩, ⟨1200, "Nyx", d1⟩] =
      [⟨612, "Mars", w6⟩, ⟨700, "Hyacinth", m1⟩, ⟨400, "Hyacinth", d3⟩, ⟨1200, "Mars", d2⟩] := by
  have a1 : y2 < s := by omega
  have b1 : ¬ w6 < y := by omega
  have b2 : ¬ m1 < y := by omega
  have b3 : ¬ d3 < y := by omega
  have b4 : ¬ d2 < y := by omega
  have b5 : ¬ d1 < y := by omega
  have c1 : ¬ w6 < s := by omega
  have c2 : ¬ m1 < s := by omega
  have c3 : ¬ d3 < s := by omega
  have c4 : ¬ d2 < s := by omega
  have c5 : ¬ d1 < s := by omega
  rw [FilterValidTransactions_eq_filter]
  simp [recordAfter, visitInclude, Include.fresh, h0, a1, b1, b2, b3, b4, b5, c1, c2, c3, c4, c5]

theorem sort_filter_valid_mock (y s d2 d3 m1 w6 : Int) (hys : y ≤ s) (hs : s ≤ w6)
    (h2 : w6 < m1) (h3 : m1 < d3) (h4 : d3 < d2) :
    FilterValidTransactions y s (SortTransactions
      [⟨612, "Mars", w6⟩, ⟨700, "Hyacinth", m1⟩, ⟨400, "Hyacinth", d3⟩, ⟨1200, "Mars", d2⟩]) =
      [⟨612, "Mars", w6⟩, ⟨700, "Hyacinth", m1⟩, ⟨400, "Hyacinth", d3⟩, ⟨1200, "Mars", d2⟩] := by
  have a6 : w6 ≤ m1 := by omega
  have a7 : w6 ≤ d3 := by omega
  have a8 : w6 ≤ d2 := by omega
  have a10 : m1 ≤ d3 := by omega
  have a11 : m1 ≤ d2 := by omega
  have a13 : d3 ≤ d2 := by omega
  have b1 : ¬ w6 < y := by omega
  have b2 : ¬ m1 < y := by omega
  have b3 : ¬ d3 < y := by omega
  have b4 : ¬ d2 < y := by omega
  have c1 : ¬ w6 < s := by omega
  have c2 : ¬ m1 < s := by omega
  have c3 : ¬ d3 < s := by omega
  have c4 : ¬ d2 < s := by omega
  have hsort : SortTransactions
      [⟨612, "Mars", w6⟩, ⟨700, "Hyacinth", m1⟩, ⟨400, "Hyacinth", d3⟩, ⟨1200, "Mars", d2⟩] =
      [⟨612, "Mars", w6⟩, ⟨700, "Hyacinth", m1⟩, ⟨400, "Hyacinth", d3⟩, ⟨1200, "Mars", d2⟩] := by
    simp [SortTransactions, sortSlice, before, List.insertionSort, List.orderedInsert,
      a6, a7, a8, a10, a11, a13]
  rw [hsort, FilterValidTransactions_eq_filter]
  simp [recordAfter, visitInclude, Include.fresh, b1, b2, b3, b4, c1, c2, c3, c4]

section OrderIndependence
variable {ι : Type} [DecidableEq ι]

theorem civStep_stored (ord : RangeOrder) (i : Nat) (st : CIVState ι) (t : Transaction ι) :
    civStep ord i st t = civStep RangeOrder.stored i st t := by
  have hA : civAllLastSoldValue ord st t = civAllLastSoldValue RangeOrder.stored st t := by
    rw [civAllLastSoldValue_eq, civAllLastSoldValue_eq]
  have hI : civIndexValue ord st t = civIndexValue RangeOrder.stored st t := by
    simp only [civIndexValue, hA]
  have hN : civNextDivisor ord st t = civNextDivisor RangeOrder.stored st t := by
    simp only [civNextDivisor, hI]
  have hW : civWeightedIndexValue ord st t = civWeightedIndexValue RangeOrder.stored st t := by
    simp only [civWeightedIndexValue, hA, hN]
  simp only [civStep, hI, hN, hW]

theorem civLoop_stored (ord : RangeOrder) (l : List (Transaction ι)) (i : Nat)
    (st : CIVState ι) : civLoop ord i st l = civLoop RangeOrder.stored i st l := by
  induction l generalizing i st with
  | nil => rfl
  | cons t rest ih => simp only [civLoop, civStep_stored ord, ih]

/-- The history does not depend on the iteration order of the map. -/
theorem CreateIndexValueHistory_stored (ord : RangeOrder) (l : List (Transaction ι)) :
    CreateIndexValueHistory ord l = CreateIndexValueHistory RangeOrder.stored l := by
  simp only [CreateIndexValueHistory, civLoop_stored ord]

/-- `TAMI` does not depend on the iteration order of the maps. -/
theorem TAMI_stored (ord : RangeOrder) (y s : Int) (l : List (Transaction ι)) :
    TAMI ord y s l = TAMI RangeOrder.stored y s l := by
  unfold TAMI
  simp only [aggregate_eq_sum, CreateIndexValueHistory_stored ord]

end OrderIndependence

/-- The body of `TAMI`, with its local variables substituted. -/
theorem TAMI_unfold {ι : Type} [DecidableEq ι] (ord : RangeOrder) (y s : Int)
    (txs : List (Transaction ι)) :
    TAMI ord y s txs =
      ((GetIndexRatios ord (CreateIndexValueHistory ord
          (FilterValidTransactions y s (SortTransactions txs)))).map
        (fun item => GetIndexValue (CreateIndexValueHistory ord
          (FilterValidTransactions y s (SortTransactions txs))) * item.IndexRatio)).foldl
        (fun timeAdjustedMarketIndex v => timeAdjustedMarketIndex + v) 0 := rfl

/-! # The claims -/

section Claims
variable {ι : Type} [DecidableEq ι]

/-- C1: `TAMI` is the sum, over the distinct items of the index-value history
`h` of the sorted and filtered input, of the final index value of `h` times the
price-to-index ratio of the last record of the item; each item counts once,
whatever the order in which `GetIndexRatios` lists the items. -/
theorem TAMI_eq_sum_over_items (ord : RangeOrder) (oneYearAgo sixMonthsAgo : Int)
    (txs : List (Transaction ι)) :
    TAMI ord oneYearAgo sixMonthsAgo txs =
      ∑ a ∈ ((CreateIndexValueHistory ord
          (FilterValidTransactions oneYearAgo sixMonthsAgo (SortTransactions txs))).map
            (fun r => r.ItemID)).toFinset,
        timeAdjustedValue (CreateIndexValueHistory ord
          (FilterValidTransactions oneYearAgo sixMonthsAgo (SortTransactions txs))) a := by
  unfold TAMI
  exact aggregate_eq_sum ord _

/-- C2: with `oneYearAgo ≤ sixMonthsAgo` and a chronological input, a
transaction is in the output of `FilterValidTransactions` exactly when it is in
the input and its item has two sales not before `oneYearAgo` and one sale not
before `sixMonthsAgo`.  In particular: two sales nine months and two days ago
are both kept, a single sale two days ago is dropped, sales thirteen months
and two months ago are dropped. -/
theorem FilterValidTransactions_liquidity (oneYearAgo sixMonthsAgo : Int)
    (hw : oneYearAgo ≤ sixMonthsAgo) :
    (∀ (txs : List (Transaction ι)),
      txs.Pairwise (fun a b => a.Timestamp ≤ b.Timestamp) → ∀ tx : Transaction ι,
      (tx ∈ FilterValidTransactions oneYearAgo sixMonthsAgo txs ↔
        tx ∈ txs ∧
        2 ≤ txs.countP (fun t => decide (t.ItemID = tx.ItemID ∧ ¬ t.Timestamp < oneYearAgo)) ∧
        1 ≤ txs.countP
          (fun t => decide (t.ItemID = tx.ItemID ∧ ¬ t.Timestamp < sixMonthsAgo)))) ∧
    (∀ (a : ι) (p q : ℚ) (nineMonthsAgo twoDaysAgo : Int),
      oneYearAgo ≤ nineMonthsAgo → nineMonthsAgo ≤ twoDaysAgo → sixMonthsAgo ≤ twoDaysAgo →
      FilterValidTransactions oneYearAgo sixMonthsAgo
          [⟨p, a, nineMonthsAgo⟩, ⟨q, a, twoDaysAgo⟩] =
        [⟨p, a, nineMonthsAgo⟩, ⟨q, a, twoDaysAgo⟩]) ∧
    (∀ (a : ι) (p : ℚ) (twoDaysAgo : Int),
      FilterValidTransactions oneYearAgo sixMonthsAgo [⟨p, a, twoDaysAgo⟩] = []) ∧
    (∀ (a : ι) (p q : ℚ) (thirteenMonthsAgo twoMonthsAgo : Int),
      thirteenMonthsAgo < oneYearAgo →
      FilterValidTransactions oneYearAgo sixMonthsAgo
          [⟨p, a, thirteenMonthsAgo⟩, ⟨q, a, twoMonthsAgo⟩] = []) := by
  have main : ∀ (txs : List (Transaction ι)),
      txs.Pairwise (fun a b => a.Timestamp ≤ b.Timestamp) → ∀ tx : Transaction ι,
      (tx ∈ FilterValidTransactions oneYearAgo sixMonthsAgo txs ↔
        tx ∈ txs ∧
        2 ≤ txs.countP (fun t => decide (t.ItemID = tx.ItemID ∧ ¬ t.Timestamp < oneYearAgo)) ∧
        1 ≤ txs.countP
          (fun t => decide (t.ItemID = tx.ItemID ∧ ¬ t.Timestamp < sixMonthsAgo))) := by
    intro txs hs tx
    rw [FilterValidTransactions_eq_filter, List.mem_filter,
      recordAfter_valid_iff oneYearAgo sixMonthsAgo hw txs hs]
  refine ⟨main, ?_, ?_, ?_⟩
  · intro a p q t9 t2 h1 h2 h3
    have e1 : ¬ t9 < oneYearAgo := by omega
    have e2 : ¬ t2 < oneYearAgo := by omega
    have e3 : ¬ t2 < sixMonthsAgo := by omega
    rw [FilterValidTransactions_eq_filter]
    by_cases e4 : t9 < sixMonthsAgo <;>
      simp [recordAfter, visitInclude, Include.fresh, e1, e2, e3, e4]
  · intro a p t2
    rw [FilterValidTransactions_eq_filter]
    by_cases e1 : t2 < oneYearAgo <;> by_cases e2 : t2 < sixMonthsAgo <;>
      simp [recordAfter, visitInclude, Include.fresh, e1, e2]
  · intro a p q t13 t2 h1
    rw [FilterValidTransactions_eq_filter]
    by_cases e1 : t2 < oneYearAgo <;> by_cases e2 : t2 < sixMonthsAgo <;>
      simp [recordAfter, visitInclude, Include.fresh, e1, e2, h1]

/-- Witness for C2. -/
theorem FilterValidTransactions_liquidity_witness :
    (⟨612, 7, 958⟩ : Transaction Nat) ∈
        FilterValidTransactions 635 818 [⟨612, 7, 958⟩, ⟨500, 3, 997⟩, ⟨1200, 7, 998⟩] ∧
    (⟨500, 3, 997⟩ : Transaction Nat) ∉
        FilterValidTransactions 635 818 [⟨612, 7, 958⟩, ⟨500, 3, 997⟩, ⟨1200, 7, 998⟩] :=
  ⟨(((FilterValidTransactions_liquidity 635 818 (by decide)).1
      [⟨612, 7, 958⟩, ⟨500, 3, 997⟩, ⟨1200, 7, 998⟩] (by simp) ⟨612, 7, 958⟩).2
      ⟨by simp, by simp [List.countP_cons], by simp [List.countP_cons]⟩),
   fun h => by
    have := (((FilterValidTransactions_liquidity 635 818 (by decide)).1
      [⟨612, 7, 958⟩, ⟨500, 3, 997⟩, ⟨1200, 7, 998⟩] (by simp) ⟨500, 3, 997⟩).1 h).2.1
    simp [List.countP_cons] at this⟩

/-- C3: with strictly positive prices, when the transaction at a position
`i > 0` is the first sale of its item, record `i` of the history has the
`IndexValue` of record `i - 1`: re-basing the divisor keeps the level. -/
theorem CreateIndexValueHistory_rebase_keeps_level (ord : RangeOrder)
    (txs : List (Transaction ι)) (hpos : ∀ t ∈ txs, 0 < t.Price) (i : Nat) (hi : 0 < i)
    (t : Transaction ι) (ht : txs[i]? = some t)
    (hnew : ∀ u ∈ txs.take i, u.ItemID ≠ t.ItemID) :
    ∃ r p, (CreateIndexValueHistory ord txs)[i]? = some r ∧
      (CreateIndexValueHistory ord txs)[i - 1]? = some p ∧
      r.Transaction = t ∧ r.IndexValue = p.IndexValue := by
  obtain ⟨hlt, hget⟩ := List.getElem?_eq_some_iff.1 ht
  have hsplit : txs = txs.take i ++ t :: txs.drop (i + 1) := by
    rw [← hget, ← List.drop_eq_getElem_cons hlt, List.take_append_drop]
  have hlen : (txs.take i).length = i := by simp; omega
  have hne : txs.take i ≠ [] := by
    intro e; rw [e] at hlen; simp at hlen; omega
  obtain ⟨X, hX, -⟩ := CreateIndexValueHistory_split ord (txs.take i) (txs.drop (i + 1)) t
  rw [← hsplit] at hX
  obtain ⟨hkeys, hrlen, hlast⟩ := CIVStruct_after ord (txs.take i)
  obtain ⟨hm, hd, hl, -⟩ := CIVPos_after ord (txs.take i)
    (fun u hu => hpos u (List.mem_of_mem_take hu))
  rw [hlen] at hrlen
  have hlast' := hlast hne
  rw [List.getLast?_eq_getElem?, hrlen] at hlast'
  have hi1 : i - 1 < (civAfter ord (txs.take i)).result.length := by omega
  rw [List.getElem?_eq_getElem hi1] at hlast'
  simp only [Option.map_some', Option.some.injEq] at hlast'
  have hfirst : civIsFirstSale (civAfter ord (txs.take i)) t = true := by
    unfold civIsFirstSale
    have : GoMap.lookup (civAfter ord (txs.take i)).transactionMap t.ItemID = none := by
      rw [hkeys]
      intro hmem
      obtain ⟨u, hu, hue⟩ := List.mem_map.1 hmem
      exact hnew u hu hue
    simp [this]
  have h0 : i ≠ 0 := by omega
  have hA := civAllLastSoldValue_pos ord (civAfter ord (txs.take i)) t hm
    (hpos t (by rw [← hget]; exact List.getElem_mem hlt))
  refine ⟨{ ItemID := t.ItemID, Price := t.Price,
            IndexValue := (civStep ord (txs.take i).length (civAfter ord (txs.take i)) t).lastIndexValue,
            Transaction := t }, (civAfter ord (txs.take i)).result[i - 1], ?_, ?_, rfl, ?_⟩
  · rw [hX, List.getElem?_append_right (by omega), hrlen]
    simp
  · rw [hX, List.getElem?_append_left hi1, List.getElem?_eq_getElem hi1]
  · rw [hlast', hlen]
    simp only [civStep, h0, if_false]
    exact civWeightedIndexValue_rebase ord _ t hfirst (ne_of_gt hA) (ne_of_gt hd)

/-- Witness for C3: Mars 612, then the first sale of Hyacinth at 700. -/
theorem CreateIndexValueHistory_rebase_keeps_level_witness :
    ∃ r p, (CreateIndexValueHistory RangeOrder.stored
        ([⟨612, 1, 958⟩, ⟨700, 2, 970⟩] : List (Transaction Nat)))[1]? = some r ∧
      (CreateIndexValueHistory RangeOrder.stored
        ([⟨612, 1, 958⟩, ⟨700, 2, 970⟩] : List (Transaction Nat)))[1 - 1]? = some p ∧
      r.Transaction = ⟨700, 2, 970⟩ ∧ r.IndexValue = p.IndexValue :=
  CreateIndexValueHistory_rebase_keeps_level RangeOrder.stored
    [⟨612, 1, 958⟩, ⟨700, 2, 970⟩] (by simp) 1 (by decide) ⟨700, 2, 970⟩ (by simp) (by simp)

/-- C4: for any input order, the output of `FilterValidTransactions` is the
input with the transactions of some set of items removed: it is a sublist of
the input (relative order kept), and of every item either all input
transactions are in the output or none is. -/
theorem FilterValidTransactions_all_or_none (oneYearAgo sixMonthsAgo : Int)
    (txs : List (Transaction ι)) :
    (∃ valid : ι → Bool, FilterValidTransactions oneYearAgo sixMonthsAgo txs =
        txs.filter (fun t => valid t.ItemID)) ∧
    (FilterValidTransactions oneYearAgo sixMonthsAgo txs).Sublist txs ∧
    ∀ a : ι,
      (FilterValidTransactions oneYearAgo sixMonthsAgo txs).filter (fun t => t.ItemID = a) =
          txs.filter (fun t => t.ItemID = a) ∨
      (FilterValidTransactions oneYearAgo sixMonthsAgo txs).filter (fun t => t.ItemID = a) =
          [] := by
  have e := FilterValidTransactions_eq_filter oneYearAgo sixMonthsAgo txs
  refine ⟨⟨fun a => (recordAfter oneYearAgo sixMonthsAgo Include.fresh txs a).IsValid, e⟩, ?_,
    fun a => ?_⟩
  · rw [e]; exact List.filter_sublist _
  · rw [e, List.filter_filter]
    by_cases hv : (recordAfter oneYearAgo sixMonthsAgo Include.fresh txs a).IsValid = true
    · left
      apply List.filter_congr
      intro t _
      by_cases ht : t.ItemID = a
      · simp [ht, hv]
      · simp [ht]
    · right
      rw [List.filter_eq_nil_iff]
      intro t _
      by_cases ht : t.ItemID = a
      · simp [ht, hv]
      · simp [ht]

/-- C5: `GetIndexRatios` lists every distinct `ItemID` of the history exactly
once, whatever the iteration order of the map; the record of an item is the
last record of that item in the history, with `IndexRatio` its `Price` divided
by its `IndexValue`. -/
theorem GetIndexRatios_one_per_item (ord : RangeOrder) (h : List (IndexValueHistoryItem ι)) :
    ((GetIndexRatios ord h).map (fun r => r.IndexValueHistoryItem.ItemID)).Perm
        (h.map (fun r => r.ItemID)).dedup ∧
    ∀ r ∈ GetIndexRatios ord h, ∃ v : IndexValueHistoryItem ι,
      lastRecordOf h r.IndexValueHistoryItem.ItemID = some v ∧
      r.IndexValueHistoryItem = v ∧ r.IndexRatio = v.Price / v.IndexValue := by
  constructor
  · refine List.Perm.trans ?_ (keys_lastSaleMap_perm h)
    have hk : ∀ kv ∈ lastSaleMap h, (withRatio kv.2).IndexValueHistoryItem.ItemID = kv.1 := by
      intro kv hkv
      exact (mem_of_lastRecordOf h kv.1 kv.2 (lastRecordOf_of_mem_lastSaleMap h kv hkv)).2
    unfold GetIndexRatios
    rw [List.map_map]
    refine List.Perm.trans ((ord.perm (lastSaleMap h)).map _) ?_
    rw [List.map_congr_left (fun kv hkv => by simpa using hk kv hkv)]
  · intro r hr
    unfold GetIndexRatios at hr
    obtain ⟨kv, hkv, rfl⟩ := List.mem_map.1 hr
    have hmem : kv ∈ lastSaleMap h := (ord.perm _).mem_iff.1 hkv
    have hlast := lastRecordOf_of_mem_lastSaleMap h kv hmem
    have hid := (mem_of_lastRecordOf h kv.1 kv.2 hlast).2
    refine ⟨kv.2, ?_, rfl, rfl⟩
    simpa [withRatio, hid] using hlast

/-- C6: `SortTransactions` returns a permutation of its input (nothing dropped,
nothing duplicated) whose timestamps are in non-decreasing order; the empty
list and the singleton lists are returned unchanged. -/
theorem SortTransactions_sorted_perm {ι : Type} (txs : List (Transaction ι)) :
    (SortTransactions txs).Perm txs ∧
    (SortTransactions txs).Pairwise (fun a b => a.Timestamp ≤ b.Timestamp) ∧
    SortTransactions ([] : List (Transaction ι)) = [] ∧
    ∀ t : Transaction ι, SortTransactions [t] = [t] := by
  refine ⟨List.perm_insertionSort _ txs, ?_, rfl, fun t => rfl⟩
  have h := List.sorted_insertionSort (fun a b : Transaction ι => ¬ before b a) txs
  exact List.Pairwise.imp (fun {a b} hab => by unfold before at hab; omega) h

/-- C7: when all transactions of a non-empty sequence have the same `ItemID`,
every record of the history has `IndexValue` equal to the `Price` of its own
transaction (the index values are the prices, position by position), and the
divisor is 1 after every step. -/
theorem CreateIndexValueHistory_single_item (ord : RangeOrder) (a : ι)
    (txs : List (Transaction ι)) (hne : txs ≠ []) (hsame : ∀ t ∈ txs, t.ItemID = a) :
    CreateIndexValueHistory ord txs ≠ [] ∧
    (∀ r ∈ CreateIndexValueHistory ord txs, r.IndexValue = r.Transaction.Price) ∧
    (CreateIndexValueHistory ord txs).map (fun r => r.IndexValue) =
      txs.map (fun t => t.Price) ∧
    (∀ l1 l2 : List (Transaction ι), txs = l1 ++ l2 → (civAfter ord l1).lastDivisor = 1) := by
  have hrec : ∀ r ∈ CreateIndexValueHistory ord txs, r.IndexValue = r.Transaction.Price :=
    (civAfter_single ord a txs hsame).2.2.2
  refine ⟨?_, hrec, ?_, ?_⟩
  · intro h
    have := CreateIndexValueHistory_length ord txs
    rw [h] at this
    exact hne (List.length_eq_zero.1 this.symm)
  · have h1 : (CreateIndexValueHistory ord txs).map (fun r => r.IndexValue) =
        (CreateIndexValueHistory ord txs).map (fun r => r.Transaction.Price) :=
      List.map_congr_left hrec
    have h2 := congrArg (List.map (fun t : Transaction ι => t.Price))
      (civAfter_result_transactions ord txs)
    rw [List.map_map] at h2
    rw [h1]
    exact h2
  · intro l1 l2 h
    exact (civAfter_single ord a l1
      (fun t ht => hsame t (by rw [h]; exact List.mem_append_left _ ht))).2.2.1

/-- Witness for C7: three sales of one item. -/
theorem CreateIndexValueHistory_single_item_witness :
    (CreateIndexValueHistory RangeOrder.stored
      ([⟨612, 1, 958⟩, ⟨0, 1, 970⟩, ⟨400, 1, 997⟩] : List (Transaction Nat))).map
        (fun r => r.IndexValue) = [612, 0, 400] :=
  (CreateIndexValueHistory_single_item RangeOrder.stored 1
    [⟨612, 1, 958⟩, ⟨0, 1, 970⟩, ⟨400, 1, 997⟩] (by simp) (by simp)).2.2.1

/-- C8, amended: over exact arithmetic (no rounding, overflow or underflow),
with strictly positive prices every record of the history has a strictly
positive `IndexValue`, the divisor is strictly positive after every step, and
no denominator of a division is zero: neither those of
`CreateIndexValueHistory` at any step, nor those of `GetIndexRatios` on the
history. -/
theorem CreateIndexValueHistory_positive (ord : RangeOrder) (txs : List (Transaction ι))
    (hpos : ∀ t ∈ txs, 0 < t.Price) :
    (∀ r ∈ CreateIndexValueHistory ord txs, 0 < r.IndexValue) ∧
    (∀ l1 l2 : List (Transaction ι), txs = l1 ++ l2 → 0 < (civAfter ord l1).lastDivisor) ∧
    (∀ (l1 l2 : List (Transaction ι)) (t : Transaction ι), txs = l1 ++ t :: l2 →
      ∀ d ∈ civDenominators ord l1.length (civAfter ord l1) t, d ≠ 0) ∧
    (∀ d ∈ ratioDenominators ord (CreateIndexValueHistory ord txs), d ≠ 0) := by
  refine ⟨CreateIndexValueHistory_pos ord txs hpos, ?_, ?_, ?_⟩
  · intro l1 l2 h
    exact (CIVPos_after ord l1
      (fun t ht => hpos t (by rw [h]; exact List.mem_append_left _ ht))).2.1
  · intro l1 l2 t h d hd
    obtain ⟨hm, hdiv, hl, -⟩ := CIVPos_after ord l1
      (fun u hu => hpos u (by rw [h]; exact List.mem_append_left _ hu))
    have ht : 0 < t.Price := hpos t (by rw [h]; simp)
    have hn := civItemCount_pos (civAfter ord l1) t
    simp only [civDenominators, List.mem_append, List.mem_singleton] at hd
    rcases hd with (hd | hd) | hd
    · rw [hd]; exact ne_of_gt (mul_pos hn hdiv)
    · split at hd
      · rename_i hc
        rw [List.mem_singleton] at hd
        rw [hd]
        exact ne_of_gt (hl (fun e => hc.1 (by simp [e])))
      · simp at hd
    · split at hd
      · rename_i hc
        rw [List.mem_singleton] at hd
        rw [hd]
        exact ne_of_gt (mul_pos hn
          (civNextDivisor_pos ord _ t hm ht hdiv (hl (fun e => hc (by simp [e])))))
      · simp at hd
  · intro d hd
    unfold ratioDenominators at hd
    obtain ⟨kv, hkv, rfl⟩ := List.mem_map.1 hd
    have hmem : kv ∈ lastSaleMap (CreateIndexValueHistory ord txs) := (ord.perm _).mem_iff.1 hkv
    have := (mem_of_lastRecordOf _ kv.1 kv.2 (lastRecordOf_of_mem_lastSaleMap _ kv hmem)).1
    exact ne_of_gt (CreateIndexValueHistory_pos ord txs hpos kv.2 this)

/-- Witness for C8: Mars 612, Hyacinth 700, Hyacinth 400, Mars 1200. -/
theorem CreateIndexValueHistory_positive_witness :
    (∀ t ∈ ([⟨612, 1, 958⟩, ⟨700, 2, 970⟩, ⟨400, 2, 997⟩, ⟨1200, 1, 998⟩] :
        List (Transaction Nat)), 0 < t.Price) ∧
    (∀ r ∈ CreateIndexValueHistory RangeOrder.stored
        ([⟨612, 1, 958⟩, ⟨700, 2, 970⟩, ⟨400, 2, 997⟩, ⟨1200, 1, 998⟩] :
          List (Transaction Nat)), 0 < r.IndexValue) :=
  ⟨by simp, (CreateIndexValueHistory_positive RangeOrder.stored
    [⟨612, 1, 958⟩, ⟨700, 2, 970⟩, ⟨400, 2, 997⟩, ⟨1200, 1, 998⟩] (by simp)).1⟩

/-- C8, counterexample: in `float64` strictly positive prices do not keep the
index values strictly positive.  With the prices `2 ^ 1023` and `2 ^ 1023` of
two items the sum of line 113 overflows to `+Inf` and line 135 computes
`Inf / Inf`: the second `IndexValue` is NaN, which is not greater than 0.
With the prices `2 ^ -1000` and `2 ^ 1000` the re-based divisor of line 132
overflows to `+Inf` and line 135 gives the `IndexValue` 0, which
`GetIndexRatios` then divides by at line 176 (the ratio is `+Inf`).  Both hold
for either order of the map iteration. -/
theorem CreateIndexValueHistoryF64_not_positive :
    (∀ t ∈ ([⟨((2 ^ 1023 : Nat) : ℚ), 1, 0⟩, ⟨((2 ^ 1023 : Nat) : ℚ), 2, 1⟩] :
        List (Transaction Nat)), 0 < t.Price ∧ F64.round t.Price = F64.fin t.Price) ∧
    (CreateIndexValueHistoryF64 RangeOrder.stored
      ([⟨((2 ^ 1023 : Nat) : ℚ), 1, 0⟩, ⟨((2 ^ 1023 : Nat) : ℚ), 2, 1⟩] :
        List (Transaction Nat))).map (fun r => r.IndexValue) =
      [F64.fin ((2 ^ 1023 : Nat) : ℚ), F64.nan] ∧
    (CreateIndexValueHistoryF64 RangeOrder.backwards
      ([⟨((2 ^ 1023 : Nat) : ℚ), 1, 0⟩, ⟨((2 ^ 1023 : Nat) : ℚ), 2, 1⟩] :
        List (Transaction Nat))).map (fun r => r.IndexValue) =
      [F64.fin ((2 ^ 1023 : Nat) : ℚ), F64.nan] ∧
    F64.lt (F64.fin 0) F64.nan = false ∧
    (∀ t ∈ ([⟨1 / ((2 ^ 1000 : Nat) : ℚ), 1, 0⟩, ⟨((2 ^ 1000 : Nat) : ℚ), 2, 1⟩] :
        List (Transaction Nat)), 0 < t.Price ∧ F64.round t.Price = F64.fin t.Price) ∧
    (CreateIndexValueHistoryF64 RangeOrder.stored
      ([⟨1 / ((2 ^ 1000 : Nat) : ℚ), 1, 0⟩, ⟨((2 ^ 1000 : Nat) : ℚ), 2, 1⟩] :
        List (Transaction Nat))).map (fun r => r.IndexValue) =
      [F64.fin (1 / ((2 ^ 1000 : Nat) : ℚ)), F64.fin 0] ∧
    (CreateIndexValueHistoryF64 RangeOrder.backwards
      ([⟨1 / ((2 ^ 1000 : Nat) : ℚ), 1, 0⟩, ⟨((2 ^ 1000 : Nat) : ℚ), 2, 1⟩] :
        List (Transaction Nat))).map (fun r => r.IndexValue) =
      [F64.fin (1 / ((2 ^ 1000 : Nat) : ℚ)), F64.fin 0] ∧
    F64.lt (F64.fin 0) (F64.fin 0) = false ∧
    (GetIndexRatiosF64 RangeOrder.stored (CreateIndexValueHistoryF64 RangeOrder.stored
      ([⟨1 / ((2 ^ 1000 : Nat) : ℚ), 1, 0⟩, ⟨((2 ^ 1000 : Nat) : ℚ), 2, 1⟩] :
        List (Transaction Nat)))).map (fun r => (r.IndexValueHistoryItem.ItemID, r.IndexRatio)) =
      [(1, F64.fin 1), (2, F64.inf false)] := by
  decide!

/-- C9: for the fixture of the tests, whatever `now` is (the instants are only
required to be in their calendar order around the two window bounds): sorting
and filtering leaves Mars 612, Hyacinth 700, Hyacinth 400, Mars 1200 in that
order; the index values are 612, 612, 38709/82 and 30600/41; `GetIndexValue`
is 30600/41, about 746.34; `TAMI` is 463600/253, about 1832.411067, on the
fixture and on its four valid transactions. -/
theorem documented_fixture (ord : RangeOrder)
    (oneYearAgo sixMonthsAgo yesterday twoDaysAgo threeDaysAgo oneMonthAgo sixWeeksAgo
      twoYearsAgo : Int)
    (h0 : twoYearsAgo < oneYearAgo) (h1 : oneYearAgo ≤ sixMonthsAgo)
    (h2 : sixMonthsAgo ≤ sixWeeksAgo) (h3 : sixWeeksAgo < oneMonthAgo)
    (h4 : oneMonthAgo < threeDaysAgo) (h5 : threeDaysAgo < twoDaysAgo)
    (h6 : twoDaysAgo < yesterday) :
    FilterValidTransactions oneYearAgo sixMonthsAgo
        (SortTransactions (mockTransactionHistory yesterday twoDaysAgo threeDaysAgo oneMonthAgo
          sixWeeksAgo twoYearsAgo)) =
      [⟨612, "Mars", sixWeeksAgo⟩, ⟨700, "Hyacinth", oneMonthAgo⟩,
       ⟨400, "Hyacinth", threeDaysAgo⟩, ⟨1200, "Mars", twoDaysAgo⟩] ∧
    (CreateIndexValueHistory ord
        [⟨612, "Mars", sixWeeksAgo⟩, ⟨700, "Hyacinth", oneMonthAgo⟩,
         ⟨400, "Hyacinth", threeDaysAgo⟩, ⟨1200, "Mars", twoDaysAgo⟩]).map
          (fun r => r.IndexValue) = [612, 612, 38709 / 82, 30600 / 41] ∧
    |(38709 / 82 : ℚ) - 472.0609756| < 1 / 10 ^ 7 ∧
    |(30600 / 41 : ℚ) - 746.3414634| < 1 / 10 ^ 7 ∧
    GetIndexValue (CreateIndexValueHistory ord
        [⟨612, "Mars", sixWeeksAgo⟩, ⟨700, "Hyacinth", oneMonthAgo⟩,
         ⟨400, "Hyacinth", threeDaysAgo⟩, ⟨1200, "Mars", twoDaysAgo⟩]) = 30600 / 41 ∧
    |(30600 / 41 : ℚ) - 746.34| < 1 / 100 ∧
    TAMI ord oneYearAgo sixMonthsAgo
        (mockTransactionHistory yesterday twoDaysAgo threeDaysAgo oneMonthAgo sixWeeksAgo
          twoYearsAgo) = 463600 / 253 ∧
    TAMI ord oneYearAgo sixMonthsAgo
        [⟨612, "Mars", sixWeeksAgo⟩, ⟨700, "Hyacinth", oneMonthAgo⟩,
         ⟨400, "Hyacinth", threeDaysAgo⟩, ⟨1200, "Mars", twoDaysAgo⟩] = 463600 / 253 ∧
    |(463600 / 253 : ℚ) - 1832.411067| < 1 / 10 ^ 6 := by
  have hsort := sort_mock yesterday twoDaysAgo threeDaysAgo oneMonthAgo sixWeeksAgo twoYearsAgo
    (by omega) h3 h4 h5 h6
  have hfilter := filter_sorted_mock oneYearAgo sixMonthsAgo yesterday twoDaysAgo threeDaysAgo
    oneMonthAgo sixWeeksAgo twoYearsAgo h0 h1 h2 h3 h4 h5 h6
  have hvalid := sort_filter_valid_mock oneYearAgo sixMonthsAgo twoDaysAgo threeDaysAgo
    oneMonthAgo sixWeeksAgo h1 h2 h3 h4 h5
  have hciv : CreateIndexValueHistory RangeOrder.stored
        [⟨612, "Mars", sixWeeksAgo⟩, ⟨700, "Hyacinth", oneMonthAgo⟩,
         ⟨400, "Hyacinth", threeDaysAgo⟩, ⟨1200, "Mars", twoDaysAgo⟩] =
      [⟨612, "Mars", 612, ⟨612, "Mars", sixWeeksAgo⟩⟩,
       ⟨700, "Hyacinth", 612, ⟨700, "Hyacinth", oneMonthAgo⟩⟩,
       ⟨400, "Hyacinth", 38709 / 82, ⟨400, "Hyacinth", threeDaysAgo⟩⟩,
       ⟨1200, "Mars", 30600 / 41, ⟨1200, "Mars", twoDaysAgo⟩⟩] := by
    simp [CreateIndexValueHistory, civLoop, civStep, civInit, civMap, civIndexValue,
      civWeightedIndexValue, civNextDivisor, civAllLastSoldValue, civItemCount, civIsFirstSale,
      GoMap.store, GoMap.lookup, GoMap.len, RangeOrder.stored]
    norm_num
  have hr : GetIndexRatios RangeOrder.stored
      ([⟨612, "Mars", 612, ⟨612, "Mars", sixWeeksAgo⟩⟩,
        ⟨700, "Hyacinth", 612, ⟨700, "Hyacinth", oneMonthAgo⟩⟩,
        ⟨400, "Hyacinth", 38709 / 82, ⟨400, "Hyacinth", threeDaysAgo⟩⟩,
        ⟨1200, "Mars", 30600 / 41, ⟨1200, "Mars", twoDaysAgo⟩⟩] :
          List (IndexValueHistoryItem String)) =
      [⟨⟨1200, "Mars", 30600 / 41, ⟨1200, "Mars", twoDaysAgo⟩⟩, 1200 / (30600 / 41)⟩,
       ⟨⟨400, "Hyacinth", 38709 / 82, ⟨400, "Hyacinth", threeDaysAgo⟩⟩,
         400 / (38709 / 82)⟩] := by
    simp [GetIndexRatios, lastSaleMap, withRatio, GoMap.store, RangeOrder.stored]
  have hv : finalIndexValue
      ([⟨612, "Mars", 612, ⟨612, "Mars", sixWeeksAgo⟩⟩,
        ⟨700, "Hyacinth", 612, ⟨700, "Hyacinth", oneMonthAgo⟩⟩,
        ⟨400, "Hyacinth", 38709 / 82, ⟨400, "Hyacinth", threeDaysAgo⟩⟩,
        ⟨1200, "Mars", 30600 / 41, ⟨1200, "Mars", twoDaysAgo⟩⟩] :
          List (IndexValueHistoryItem String)) = 30600 / 41 := by
    simp [finalIndexValue]
  refine ⟨by rw [hsort, hfilter], ?_, ?_, ?_, ?_, ?_, ?_, ?_, ?_⟩
  · rw [CreateIndexValueHistory_stored, hciv]; simp
  · rw [abs_lt]; constructor <;> norm_num
  · rw [abs_lt]; constructor <;> norm_num
  · rw [CreateIndexValueHistory_stored, hciv, GetIndexValue_eq_final, hv]
  · rw [abs_lt]; constructor <;> norm_num
  · refine (TAMI_stored ord _ _ _).trans ?_
    rw [TAMI_unfold, hsort, hfilter, hciv, hr, GetIndexValue_eq_final, hv]
    rw [List.map_cons, List.map_cons, List.map_nil, List.foldl_cons, List.foldl_cons,
      List.foldl_nil]
    norm_num
  · refine (TAMI_stored ord _ _ _).trans ?_
    rw [TAMI_unfold, hvalid, hciv, hr, GetIndexValue_eq_final, hv]
    rw [List.map_cons, List.map_cons, List.map_nil, List.foldl_cons, List.foldl_cons,
      List.foldl_nil]
    norm_num
  · rw [abs_lt]; constructor <;> norm_num

/-- Witness for C9: `now` is day 0, a month has 30 days and a year 365. -/
theorem documented_fixture_witness :
    TAMI RangeOrder.backwards (-365) (-182)
      (mockTransactionHistory (-1) (-2) (-3) (-30) (-42) (-730)) = 463600 / 253 :=
  (documented_fixture RangeOrder.backwards (-365) (-182) (-1) (-2) (-3) (-30) (-42) (-730)
    (by decide) (by decide) (by decide) (by decide) (by decide) (by decide)
    (by decide)).2.2.2.2.2.2.1

/-- C10: `GetIndexValue` returns 0 on the empty history and otherwise the
`IndexValue` of the last record of the history. -/
theorem GetIndexValue_last {ι : Type} :
    GetIndexValue ([] : List (IndexValueHistoryItem ι)) = 0 ∧
    ∀ (h : List (IndexValueHistoryItem ι)) (hne : h ≠ []),
      GetIndexValue h = (h.getLast hne).IndexValue := by
  refine ⟨by simp [GetIndexValue], fun h hne => ?_⟩
  obtain ⟨l, r, rfl⟩ : ∃ l r, h = l ++ [r] :=
    ⟨h.dropLast, h.getLast hne, (List.dropLast_append_getLast hne).symm⟩
  simp [GetIndexValue]

end Claims

/-! # Lemmas for the claims on empty input, order and idempotence -/

section Lemmas2
variable {ι : Type} [DecidableEq ι]

theorem shuffle_nil (ord : RangeOrder) {α : Type} : ord.shuffle ([] : List α) = [] :=
  List.Perm.eq_nil (ord.perm [])

theorem TAMI_of_filtered_nil (ord : RangeOrder) (y s : Int) (txs : List (Transaction ι))
    (h : FilterValidTransactions y s (SortTransactions txs) = []) : TAMI ord y s txs = 0 := by
  rw [TAMI_unfold, h]
  simp [CreateIndexValueHistory, civLoop, civInit, GetIndexRatios, lastSaleMap, shuffle_nil]

/-- For any input order, a valid final flag needs two counted sales and a
recent one. -/
theorem foldl_visitInclude_valid_imp {κ : Type} (y s : Int) (l : List (Transaction κ))
    (inc : Include) (hinc : inc.IsValid = false)
    (hv : (l.foldl (visitInclude y s) inc).IsValid = true) :
    2 ≤ inc.PastYearSaleCount + l.countP (fun t => decide (¬ t.Timestamp < y)) ∧
    1 ≤ l.countP (fun t => decide (¬ t.Timestamp < s)) := by
  induction l generalizing inc with
  | nil => simp [hinc] at hv
  | cons t rest ih =>
    simp only [List.foldl_cons] at hv
    by_cases h1 : t.Timestamp < y
    · have hvis : visitInclude y s inc t = inc := by simp [visitInclude, hinc, h1]
      rw [hvis] at hv
      obtain ⟨a, b⟩ := ih inc hinc hv
      simp only [List.countP_cons]
      exact ⟨by omega, by omega⟩
    · by_cases h2 : t.Timestamp < s
      · have hvis : visitInclude y s inc t =
            ⟨inc.PastYearSaleCount + 1, inc.HasSaleInLastSixMonths, inc.IsValid⟩ := by
          simp [visitInclude, hinc, h1, h2]
        rw [hvis] at hv
        obtain ⟨a, b⟩ := ih ⟨inc.PastYearSaleCount + 1, inc.HasSaleInLastSixMonths, inc.IsValid⟩
          hinc hv
        have a' : 2 ≤ inc.PastYearSaleCount + 1 +
            rest.countP (fun t => decide (¬ t.Timestamp < y)) := a
        simp only [List.countP_cons, h1, h2, not_false_eq_true, decide_True, if_true,
          not_true_eq_false, decide_False, Bool.false_eq_true, if_false]
        exact ⟨by omega, by omega⟩
      · simp only [List.countP_cons, h1, h2, not_false_eq_true, decide_True, if_true]
        by_cases h3 : inc.PastYearSaleCount + 1 ≥ 2
        · exact ⟨by omega, by omega⟩
        · have hvis : visitInclude y s inc t =
              ⟨inc.PastYearSaleCount + 1, true, inc.IsValid⟩ := by
            simp [visitInclude, hinc, h1, h2, h3]
          rw [hvis] at hv
          obtain ⟨a, b⟩ := ih ⟨inc.PastYearSaleCount + 1, true, inc.IsValid⟩ hinc hv
          have a' : 2 ≤ inc.PastYearSaleCount + 1 +
              rest.countP (fun t => decide (¬ t.Timestamp < y)) := a
          exact ⟨by omega, by omega⟩

end Lemmas2

section Claims2
variable {ι : Type} [DecidableEq ι]

/-- C11: the empty input is not an error: `FilterValidTransactions`,
`CreateIndexValueHistory` and `GetIndexRatios` of the empty list are empty and
`TAMI` of the empty list is 0; and `TAMI` is 0 whenever no transaction of the
sorted input passes the filter. -/
theorem TAMI_empty (ord : RangeOrder) (oneYearAgo sixMonthsAgo : Int) :
    FilterValidTransactions oneYearAgo sixMonthsAgo ([] : List (Transaction ι)) = [] ∧
    CreateIndexValueHistory ord ([] : List (Transaction ι)) = [] ∧
    GetIndexRatios ord ([] : List (IndexValueHistoryItem ι)) = [] ∧
    GetIndexValue ([] : List (IndexValueHistoryItem ι)) = 0 ∧
    TAMI ord oneYearAgo sixMonthsAgo ([] : List (Transaction ι)) = 0 ∧
    ∀ txs : List (Transaction ι),
      FilterValidTransactions oneYearAgo sixMonthsAgo (SortTransactions txs) = [] →
      TAMI ord oneYearAgo sixMonthsAgo txs = 0 := by
  refine ⟨rfl, rfl, ?_, ?_, ?_, fun txs h => TAMI_of_filtered_nil ord _ _ txs h⟩
  · simp [GetIndexRatios, lastSaleMap, shuffle_nil]
  · simp [GetIndexValue]
  · exact TAMI_of_filtered_nil ord _ _ [] rfl

/-- C13: for any input order, every transaction in the output of
`FilterValidTransactions` is a transaction of the input whose item has at
least two input transactions not before `oneYearAgo` and at least one not
before `sixMonthsAgo`. -/
theorem FilterValidTransactions_sound (oneYearAgo sixMonthsAgo : Int)
    (txs : List (Transaction ι)) (tx : Transaction ι)
    (h : tx ∈ FilterValidTransactions oneYearAgo sixMonthsAgo txs) :
    tx ∈ txs ∧
    2 ≤ txs.countP (fun t => decide (t.ItemID = tx.ItemID ∧ ¬ t.Timestamp < oneYearAgo)) ∧
    1 ≤ txs.countP
      (fun t => decide (t.ItemID = tx.ItemID ∧ ¬ t.Timestamp < sixMonthsAgo)) := by
  rw [FilterValidTransactions_eq_filter, List.mem_filter] at h
  refine ⟨h.1, ?_⟩
  have := foldl_visitInclude_valid_imp oneYearAgo sixMonthsAgo
    (txs.filter (fun t => t.ItemID = tx.ItemID)) Include.fresh rfl h.2
  rw [countP_filter_item, countP_filter_item] at this
  simpa [Include.fresh] using this

/-- Witness for C13: an input that is not chronological. -/
theorem FilterValidTransactions_sound_witness :
    (⟨5, 7, -2⟩ : Transaction Nat) ∈
        FilterValidTransactions (-365) (-182) [⟨3, 7, -270⟩, ⟨4, 1, -400⟩, ⟨5, 7, -2⟩] ∧
    2 ≤ ([⟨3, 7, -270⟩, ⟨4, 1, -400⟩, ⟨5, 7, -2⟩] : List (Transaction Nat)).countP
      (fun t => decide (t.ItemID = 7 ∧ ¬ t.Timestamp < -365)) :=
  ⟨by rw [FilterValidTransactions_eq_filter]; simp [recordAfter, visitInclude, Include.fresh],
   (FilterValidTransactions_sound (-365) (-182) [⟨3, 7, -270⟩, ⟨4, 1, -400⟩, ⟨5, 7, -2⟩]
      ⟨5, 7, -2⟩
      (by rw [FilterValidTransactions_eq_filter]
          simp [recordAfter, visitInclude, Include.fresh])).2.1⟩

/-- C17: `FilterValidTransactions` depends on the input order: an item with a
sale two days ago listed before its sale nine months ago has two sales within
the year and one within six months, yet none of its transactions is in the
output; the same transactions in chronological order are both kept. -/
theorem FilterValidTransactions_order_sensitive :
    ∃ (oneYearAgo sixMonthsAgo : Int) (txs : List (Transaction Nat)),
      oneYearAgo ≤ sixMonthsAgo ∧
      ¬ txs.Pairwise (fun a b => a.Timestamp ≤ b.Timestamp) ∧
      2 ≤ txs.countP (fun t => decide (t.ItemID = 7 ∧ ¬ t.Timestamp < oneYearAgo)) ∧
      1 ≤ txs.countP (fun t => decide (t.ItemID = 7 ∧ ¬ t.Timestamp < sixMonthsAgo)) ∧
      FilterValidTransactions oneYearAgo sixMonthsAgo txs = [] ∧
      txs.Perm (SortTransactions txs) ∧
      FilterValidTransactions oneYearAgo sixMonthsAgo (SortTransactions txs) =
        SortTransactions txs ∧
      SortTransactions txs = [⟨400, 7, -270⟩, ⟨700, 7, -2⟩] := by
  refine ⟨-365, -182, [⟨700, 7, -2⟩, ⟨400, 7, -270⟩], by decide, by simp, by simp, by simp,
    ?_, ?_, ?_, ?_⟩
  · rw [FilterValidTransactions_eq_filter]; simp [recordAfter, visitInclude, Include.fresh]
  · exact (List.perm_insertionSort (fun a b : Transaction Nat => ¬ before b a) _).symm
  · have hs : SortTransactions ([⟨700, 7, -2⟩, ⟨400, 7, -270⟩] : List (Transaction Nat)) =
        [⟨400, 7, -270⟩, ⟨700, 7, -2⟩] := by
      simp [SortTransactions, sortSlice, before]
    rw [hs, FilterValidTransactions_eq_filter]
    simp [recordAfter, visitInclude, Include.fresh]
  · simp [SortTransactions, sortSlice, before]

end Claims2

section Lemmas3
variable {ι : Type} [DecidableEq ι]

theorem civAfter_result_fields (ord : RangeOrder) (l : List (Transaction ι)) :
    ∀ r ∈ (civAfter ord l).result,
      r.Price = r.Transaction.Price ∧ r.ItemID = r.Transaction.ItemID := by
  induction l using List.reverseRecOn with
  | nil => simp [civAfter, civLoop, civInit]
  | append_singleton l t ih =>
    intro r hr
    rw [civAfter_snoc, civStep_result, List.mem_append] at hr
    rcases hr with hr | hr
    · exact ih r hr
    · rw [List.mem_singleton] at hr
      rw [hr]
      exact ⟨rfl, rfl⟩

theorem sorted_of_pairwise_le {κ : Type} (l : List (Transaction κ))
    (h : l.Pairwise (fun a b => a.Timestamp ≤ b.Timestamp)) :
    l.Sorted (fun a b => ¬ before b a) :=
  List.Pairwise.imp (fun {a b} hab => by unfold before; omega) h

theorem SortTransactions_of_sorted {κ : Type} (l : List (Transaction κ))
    (h : l.Pairwise (fun a b => a.Timestamp ≤ b.Timestamp)) : SortTransactions l = l :=
  List.Sorted.insertionSort_eq (sorted_of_pairwise_le l h)

/-- Lists that agree under a map which is injective on their elements are
equal. -/
theorem eq_of_map_eq_of_injOn {α β : Type} (f : α → β) :
    ∀ (l1 l2 : List α), l1.map f = l2.map f →
      (∀ x ∈ l1, ∀ y ∈ l2, f x = f y → x = y) → l1 = l2
  | [], [], _, _ => rfl
  | [], _ :: _, h, _ => by simp at h
  | _ :: _, [], h, _ => by simp at h
  | a :: l1, b :: l2, h, hinj => by
    simp only [List.map_cons, List.cons.injEq] at h
    have hab : a = b := hinj a (by simp) b (by simp) h.1
    have := eq_of_map_eq_of_injOn f l1 l2 h.2
      (fun x hx y hy => hinj x (List.mem_cons_of_mem _ hx) y (List.mem_cons_of_mem _ hy))
    rw [hab, this]

/-- With pairwise distinct timestamps the sorted list depends only on the
transactions present, not on their input order. -/
theorem SortTransactions_perm_eq {κ : Type} (l1 l2 : List (Transaction κ)) (hp : l1.Perm l2)
    (hd : (l2.map (fun t => t.Timestamp)).Nodup) :
    SortTransactions l1 = SortTransactions l2 := by
  have p1 : (SortTransactions l1).Perm l1 := List.perm_insertionSort _ l1
  have p2 : (SortTransactions l2).Perm l2 := List.perm_insertionSort _ l2
  have s1 : (SortTransactions l1).Pairwise (fun a b => a.Timestamp ≤ b.Timestamp) :=
    List.Pairwise.imp (fun {a b} hab => by unfold before at hab; omega)
      (List.sorted_insertionSort (fun a b : Transaction κ => ¬ before b a) l1)
  have s2 : (SortTransactions l2).Pairwise (fun a b => a.Timestamp ≤ b.Timestamp) :=
    List.Pairwise.imp (fun {a b} hab => by unfold before at hab; omega)
      (List.sorted_insertionSort (fun a b : Transaction κ => ¬ before b a) l2)
  have hmap : (SortTransactions l1).map (fun t => t.Timestamp) =
      (SortTransactions l2).map (fun t => t.Timestamp) := by
    apply List.eq_of_perm_of_sorted (r := (· ≤ ·))
    · exact ((p1.trans hp).trans p2.symm).map _
    · exact List.pairwise_map.2 s1
    · exact List.pairwise_map.2 s2
  apply eq_of_map_eq_of_injOn (fun t : Transaction κ => t.Timestamp) _ _ hmap
  intro x hx y hy hxy
  have hx2 : x ∈ l2 := hp.mem_iff.1 (p1.mem_iff.1 hx)
  have hy2 : y ∈ l2 := p2.mem_iff.1 hy
  exact List.inj_on_of_nodup_map hd hx2 hy2 hxy

end Lemmas3

section Claims3
variable {ι : Type} [DecidableEq ι]

/-- C12: `CreateIndexValueHistory` returns one record per transaction, in
order: the history has the length of the input and its record at position `i`
has the price, the item id and the value of the transaction at position `i`. -/
theorem CreateIndexValueHistory_one_per_transaction (ord : RangeOrder)
    (txs : List (Transaction ι)) :
    (CreateIndexValueHistory ord txs).length = txs.length ∧
    (CreateIndexValueHistory ord txs).map (fun r => (r.Price, r.ItemID, r.Transaction)) =
      txs.map (fun t => (t.Price, t.ItemID, t)) ∧
    ∀ (i : Nat) (t : Transaction ι), txs[i]? = some t →
      ∃ r, (CreateIndexValueHistory ord txs)[i]? = some r ∧
        r.Price = t.Price ∧ r.ItemID = t.ItemID ∧ r.Transaction = t := by
  have hlen := CreateIndexValueHistory_length ord txs
  have htx : (CreateIndexValueHistory ord txs).map (fun r => r.Transaction) = txs :=
    civAfter_result_transactions ord txs
  have hf : ∀ r ∈ CreateIndexValueHistory ord txs,
      r.Price = r.Transaction.Price ∧ r.ItemID = r.Transaction.ItemID :=
    civAfter_result_fields ord txs
  refine ⟨hlen, ?_, ?_⟩
  · have h1 : (CreateIndexValueHistory ord txs).map (fun r => (r.Price, r.ItemID, r.Transaction)) =
        (CreateIndexValueHistory ord txs).map
          (fun r => (r.Transaction.Price, r.Transaction.ItemID, r.Transaction)) :=
      List.map_congr_left (fun r hr => by rw [(hf r hr).1, (hf r hr).2])
    have h2 := congrArg (List.map (fun t : Transaction ι => (t.Price, t.ItemID, t))) htx
    rw [List.map_map] at h2
    rw [h1]
    exact h2
  · intro i t hi
    obtain ⟨hlt, hget⟩ := List.getElem?_eq_some_iff.1 hi
    have hlt' : i < (CreateIndexValueHistory ord txs).length := by rw [hlen]; exact hlt
    have hr : ((CreateIndexValueHistory ord txs)[i]).Transaction = t := by
      have := List.getElem_map (fun r : IndexValueHistoryItem ι => r.Transaction)
        (l := CreateIndexValueHistory ord txs) (n := i) (h := by simpa using hlt')
      rw [← this]
      simp only [htx]
      exact hget
    have hmem := List.getElem_mem hlt'
    refine ⟨(CreateIndexValueHistory ord txs)[i], List.getElem?_eq_getElem hlt', ?_, ?_, hr⟩
    · rw [(hf _ hmem).1, hr]
    · rw [(hf _ hmem).2, hr]

/-- Two chronological arrangements of the same transactions are equal when
the timestamps are pairwise distinct. -/
theorem eq_of_perm_of_chronological {κ : Type} (out l : List (Transaction κ))
    (hp : out.Perm l) (hout : out.Pairwise (fun a b => a.Timestamp ≤ b.Timestamp))
    (hl : l.Pairwise (fun a b => a.Timestamp ≤ b.Timestamp))
    (hd : (l.map (fun t => t.Timestamp)).Nodup) : out = l := by
  have hmap : out.map (fun t => t.Timestamp) = l.map (fun t => t.Timestamp) := by
    apply List.eq_of_perm_of_sorted (r := (· ≤ ·))
    · exact hp.map _
    · exact List.pairwise_map.2 hout
    · exact List.pairwise_map.2 hl
  apply eq_of_map_eq_of_injOn (fun t : Transaction κ => t.Timestamp) _ _ hmap
  intro x hx y hy hxy
  exact List.inj_on_of_nodup_map hd (hp.mem_iff.1 hx) hy hxy

/-- C14: a sequence that is already in non-decreasing timestamp order, equal
timestamps included, is returned by `SortTransactions` as it is.  When its
timestamps are pairwise distinct it is moreover the only chronological
arrangement of its transactions, whatever the sorting algorithm. -/
theorem SortTransactions_sorted_id {κ : Type} (txs : List (Transaction κ))
    (hs : txs.Pairwise (fun a b => a.Timestamp ≤ b.Timestamp)) :
    SortTransactions txs = txs ∧
    ((txs.map (fun t => t.Timestamp)).Nodup → ∀ out : List (Transaction κ), out.Perm txs →
      out.Pairwise (fun a b => a.Timestamp ≤ b.Timestamp) → out = txs) :=
  ⟨SortTransactions_of_sorted txs hs,
   fun hd out hp hout => eq_of_perm_of_chronological out txs hp hout hs hd⟩

/-- Witness for C14: two transactions share a timestamp. -/
theorem SortTransactions_sorted_id_witness :
    SortTransactions ([⟨5, 2, 10⟩, ⟨7, 1, 10⟩, ⟨3, 2, 12⟩] : List (Transaction Nat)) =
      [⟨5, 2, 10⟩, ⟨7, 1, 10⟩, ⟨3, 2, 12⟩] :=
  (SortTransactions_sorted_id [⟨5, 2, 10⟩, ⟨7, 1, 10⟩, ⟨3, 2, 12⟩] (by simp)).1

/-- C18, amended: for a fixed reference instant and pairwise distinct
timestamps, the sorted list and the filtered list are the same for every
permutation of the input; the index-value history and `TAMI` are the same for
every permutation and all iteration orders of the maps over exact arithmetic,
and in `float64` when both runs iterate the maps in the same order. -/
theorem TAMI_input_order_independent (ord ord' : RangeOrder) (oneYearAgo sixMonthsAgo : Int)
    (txs txs' : List (Transaction ι)) (hp : txs'.Perm txs)
    (hd : (txs.map (fun t => t.Timestamp)).Nodup) :
    SortTransactions txs' = SortTransactions txs ∧
    FilterValidTransactions oneYearAgo sixMonthsAgo (SortTransactions txs') =
      FilterValidTransactions oneYearAgo sixMonthsAgo (SortTransactions txs) ∧
    CreateIndexValueHistory ord'
        (FilterValidTransactions oneYearAgo sixMonthsAgo (SortTransactions txs')) =
      CreateIndexValueHistory ord
        (FilterValidTransactions oneYearAgo sixMonthsAgo (SortTransactions txs)) ∧
    TAMI ord' oneYearAgo sixMonthsAgo txs' = TAMI ord oneYearAgo sixMonthsAgo txs ∧
    CreateIndexValueHistoryF64 ord
        (FilterValidTransactions oneYearAgo sixMonthsAgo (SortTransactions txs')) =
      CreateIndexValueHistoryF64 ord
        (FilterValidTransactions oneYearAgo sixMonthsAgo (SortTransactions txs)) ∧
    TAMIF64 ord oneYearAgo sixMonthsAgo txs' = TAMIF64 ord oneYearAgo sixMonthsAgo txs := by
  have hs := SortTransactions_perm_eq txs' txs hp hd
  refine ⟨hs, by rw [hs], ?_, ?_, by rw [hs], ?_⟩
  · rw [hs, CreateIndexValueHistory_stored ord', CreateIndexValueHistory_stored ord]
  · refine (TAMI_stored ord' _ _ _).trans ((?_ : _ = _).trans (TAMI_stored ord _ _ _).symm)
    rw [TAMI_unfold, TAMI_unfold, hs]
  · unfold TAMIF64
    rw [hs]

/-- Witness for C18: two orders of three transactions of one item. -/
theorem TAMI_input_order_independent_witness :
    TAMI RangeOrder.backwards (-365) (-182)
        ([⟨5, 7, -2⟩, ⟨3, 7, -270⟩, ⟨4, 7, -100⟩] : List (Transaction Nat)) =
      TAMI RangeOrder.stored (-365) (-182) [⟨3, 7, -270⟩, ⟨4, 7, -100⟩, ⟨5, 7, -2⟩] :=
  (TAMI_input_order_independent RangeOrder.stored RangeOrder.backwards (-365) (-182)
    [⟨3, 7, -270⟩, ⟨4, 7, -100⟩, ⟨5, 7, -2⟩] [⟨5, 7, -2⟩, ⟨3, 7, -270⟩, ⟨4, 7, -100⟩]
    (by decide) (by simp)).2.2.2.1

/-- C18, counterexample: in `float64` the history and `TAMI` of one input with
pairwise distinct timestamps depend on the order in which the maps are
iterated.  Three items at price 1, then the first at `2 ^ 53`, then the other
two again: line 113 adds `2 ^ 53 + 1 + 1` to `2 ^ 53` in the stored order and
`1 + 1 + 2 ^ 53` to `2 ^ 53 + 2` in the reverse order, the index values from
position 3 on differ, and `TAMI` is `2 ^ 53` in one run and `2 ^ 53 + 2` in
the other. -/
theorem TAMIF64_depends_on_iteration_order :
    (([⟨1, 1, -60⟩, ⟨1, 2, -50⟩, ⟨1, 3, -40⟩, ⟨((2 ^ 53 : Nat) : ℚ), 1, -30⟩, ⟨1, 2, -20⟩,
        ⟨1, 3, -10⟩] : List (Transaction Nat)).map (fun t => t.Timestamp)).Nodup ∧
    (∀ t ∈ ([⟨1, 1, -60⟩, ⟨1, 2, -50⟩, ⟨1, 3, -40⟩, ⟨((2 ^ 53 : Nat) : ℚ), 1, -30⟩,
        ⟨1, 2, -20⟩, ⟨1, 3, -10⟩] : List (Transaction Nat)),
      F64.round t.Price = F64.fin t.Price) ∧
    (CreateIndexValueHistoryF64 RangeOrder.stored (FilterValidTransactions (-365) (-182)
      (SortTransactions ([⟨1, 1, -60⟩, ⟨1, 2, -50⟩, ⟨1, 3, -40⟩, ⟨((2 ^ 53 : Nat) : ℚ), 1, -30⟩,
        ⟨1, 2, -20⟩, ⟨1, 3, -10⟩] : List (Transaction Nat))))).map (fun r => r.IndexValue) =
      [F64.fin 1, F64.fin 1, F64.fin 1, F64.fin (6004799503160661 / 2),
       F64.fin (6004799503160661 / 2), F64.fin (6004799503160661 / 2)] ∧
    (CreateIndexValueHistoryF64 RangeOrder.backwards (FilterValidTransactions (-365) (-182)
      (SortTransactions ([⟨1, 1, -60⟩, ⟨1, 2, -50⟩, ⟨1, 3, -40⟩, ⟨((2 ^ 53 : Nat) : ℚ), 1, -30⟩,
        ⟨1, 2, -20⟩, ⟨1, 3, -10⟩] : List (Transaction Nat))))).map (fun r => r.IndexValue) =
      [F64.fin 1, F64.fin 1, F64.fin 1, F64.fin (6004799503160663 / 2),
       F64.fin (6004799503160663 / 2), F64.fin (6004799503160663 / 2)] ∧
    TAMIF64 RangeOrder.stored (-365) (-182)
      ([⟨1, 1, -60⟩, ⟨1, 2, -50⟩, ⟨1, 3, -40⟩, ⟨((2 ^ 53 : Nat) : ℚ), 1, -30⟩, ⟨1, 2, -20⟩,
        ⟨1, 3, -10⟩] : List (Transaction Nat)) = F64.fin 9007199254740992 ∧
    TAMIF64 RangeOrder.backwards (-365) (-182)
      ([⟨1, 1, -60⟩, ⟨1, 2, -50⟩, ⟨1, 3, -40⟩, ⟨((2 ^ 53 : Nat) : ℚ), 1, -30⟩, ⟨1, 2, -20⟩,
        ⟨1, 3, -10⟩] : List (Transaction Nat)) = F64.fin 9007199254740994 := by
  decide!

end Claims3

section Claims4
variable {ι : Type} [DecidableEq ι]

/-- C20: for a fixed reference instant `FilterValidTransactions` is idempotent,
for any input order; in particular `TAMI` on an already sorted and filtered
list works on the same filtered sequence. -/
theorem FilterValidTransactions_idempotent (oneYearAgo sixMonthsAgo : Int)
    (xs : List (Transaction ι)) :
    FilterValidTransactions oneYearAgo sixMonthsAgo
        (FilterValidTransactions oneYearAgo sixMonthsAgo xs) =
      FilterValidTransactions oneYearAgo sixMonthsAgo xs ∧
    (xs.Pairwise (fun a b => a.Timestamp ≤ b.Timestamp) →
      FilterValidTransactions oneYearAgo sixMonthsAgo
          (SortTransactions (FilterValidTransactions oneYearAgo sixMonthsAgo xs)) =
        FilterValidTransactions oneYearAgo sixMonthsAgo xs) := by
  have key : FilterValidTransactions oneYearAgo sixMonthsAgo
        (FilterValidTransactions oneYearAgo sixMonthsAgo xs) =
      FilterValidTransactions oneYearAgo sixMonthsAgo xs := by
    rw [FilterValidTransactions_eq_filter oneYearAgo sixMonthsAgo
      (FilterValidTransactions oneYearAgo sixMonthsAgo xs)]
    rw [List.filter_eq_self]
    intro t ht
    have hv : (recordAfter oneYearAgo sixMonthsAgo Include.fresh xs t.ItemID).IsValid = true := by
      rw [FilterValidTransactions_eq_filter, List.mem_filter] at ht
      exact ht.2
    have hsame : (FilterValidTransactions oneYearAgo sixMonthsAgo xs).filter
        (fun u => u.ItemID = t.ItemID) = xs.filter (fun u => u.ItemID = t.ItemID) := by
      rw [FilterValidTransactions_eq_filter, List.filter_filter]
      apply List.filter_congr
      intro u _
      by_cases hu : u.ItemID = t.ItemID
      · simp [hu, hv]
      · simp [hu]
    unfold recordAfter
    rw [hsame]
    exact hv
  refine ⟨key, fun hs => ?_⟩
  have hsorted : (FilterValidTransactions oneYearAgo sixMonthsAgo xs).Pairwise
      (fun a b => a.Timestamp ≤ b.Timestamp) := by
    rw [FilterValidTransactions_eq_filter]
    exact List.Pairwise.filter _ hs
  rw [SortTransactions_of_sorted _ hsorted, key]

end Claims4

/-! # The divisor, the zero base and the scaling of prices -/

section StoreAll
variable {α ι : Type} [DecidableEq ι]

theorem storeAll_snoc (key : α → ι) (l : List α) (x : α) :
    storeAll key (l ++ [x]) = GoMap.store (storeAll key l) (key x) x := by
  simp [storeAll, List.foldl_append]

theorem lookup_storeAll (key : α → ι) (l : List α) (a : ι) :
    GoMap.lookup (storeAll key l) a = (l.filter (fun x => key x = a)).getLast? := by
  induction l using List.reverseRecOn with
  | nil => simp [storeAll, GoMap.lookup]
  | append_singleton l x ih =>
    rw [storeAll_snoc, GoMap.lookup_store, ih]
    by_cases hx : key x = a
    · simp [List.filter_append, hx]
    · simp [List.filter_append, hx]

theorem nodup_keys_storeAll (key : α → ι) (l : List α) :
    ((storeAll key l).map Prod.fst).Nodup := by
  induction l using List.reverseRecOn with
  | nil => simp [storeAll]
  | append_singleton l x ih =>
    rw [storeAll_snoc]
    exact GoMap.nodup_keys_store _ _ _ ih

theorem mem_keys_storeAll (key : α → ι) (l : List α) (a : ι) :
    a ∈ (storeAll key l).map Prod.fst ↔ a ∈ l.map key := by
  induction l using List.reverseRecOn with
  | nil => simp [storeAll]
  | append_singleton l x ih =>
    rw [storeAll_snoc, GoMap.mem_keys_store, ih]
    simp [or_comm]

/-- Summing a quantity over the values of the map is summing it over the
distinct keys, at the last element stored under each key. -/
theorem sum_storeAll (key : α → ι) (f : α → ℚ) (l : List α) :
    ((storeAll key l).map (fun kv => f kv.2)).sum =
      ∑ a ∈ (l.map key).toFinset,
        (((l.filter (fun x => key x = a)).getLast?).map f).getD 0 := by
  have hfin : (l.map key).toFinset = ((storeAll key l).map Prod.fst).toFinset := by
    ext a
    simp only [List.mem_toFinset]
    exact (mem_keys_storeAll key l a).symm
  rw [hfin, List.sum_toFinset _ (nodup_keys_storeAll key l), List.map_map]
  congr 1
  apply List.map_congr_left
  intro kv hkv
  have := GoMap.lookup_of_mem _ (nodup_keys_storeAll key l) kv.1 kv.2 hkv
  rw [lookup_storeAll] at this
  simp only [Function.comp, this, Option.map_some', Option.getD_some]

end StoreAll

section DivisorLemmas
variable {ι : Type} [DecidableEq ι]

theorem civAfter_map (ord : RangeOrder) (l : List (Transaction ι)) :
    (civAfter ord l).transactionMap = storeAll (fun t => t.ItemID) l := by
  induction l using List.reverseRecOn with
  | nil => simp [civAfter, civLoop, civInit, storeAll]
  | append_singleton l t ih => rw [civAfter_snoc, civStep_map, civMap, ih, storeAll_snoc]

/-- After every step the last index value is the sum of the latest prices over
the item count times the divisor. -/
theorem civStep_lastIndexValue (ord : RangeOrder) (i : Nat) (st : CIVState ι)
    (t : Transaction ι) :
    (civStep ord i st t).lastIndexValue =
      ((civStep ord i st t).transactionMap.map (fun kv => kv.2.Price)).sum /
        ((GoMap.len (civStep ord i st t).transactionMap : ℚ) *
          (civStep ord i st t).lastDivisor) := by
  rw [civStep_map, ← civAllLastSoldValue_eq ord]
  by_cases hi : i = 0
  · simp [civStep, hi, civIndexValue, civItemCount]
  · simp [civStep, hi, civWeightedIndexValue, civItemCount]

theorem civAfter_lastIndexValue (ord : RangeOrder) (l : List (Transaction ι)) (hne : l ≠ []) :
    (civAfter ord l).lastIndexValue =
      latestPriceSum l /
        ((GoMap.len (civAfter ord l).transactionMap : ℚ) * (civAfter ord l).lastDivisor) := by
  have hsum : latestPriceSum l =
      ((civAfter ord l).transactionMap.map (fun kv => kv.2.Price)).sum := by
    rw [civAfter_map, sum_storeAll]
    rfl
  rw [hsum]
  obtain ⟨l', t, rfl⟩ : ∃ l' t, l = l' ++ [t] :=
    ⟨l.dropLast, l.getLast hne, (List.dropLast_append_getLast hne).symm⟩
  rw [civAfter_snoc]
  exact civStep_lastIndexValue ord _ _ t

theorem GoMap.len_store_of_mem {V : Type} (m : GoMap ι V) (k : ι) (v : V)
    (h : k ∈ m.map Prod.fst) : GoMap.len (GoMap.store m k v) = GoMap.len m := by
  have := congrArg List.length (GoMap.keys_store m k v)
  rw [if_pos h] at this
  simpa [GoMap.len] using this

end DivisorLemmas

section DivisorClaims
variable {ι : Type} [DecidableEq ι]

/-- C16: the divisor changes only at first sales.  At a position `i > 0`
(`i` is the length of the non-empty `l1`) whose item already occurs in `l1`,
the divisor after step `i` is the divisor after step `i - 1`; and with strictly
positive prices the index values of records `i` and `i - 1` are in the ratio
of the sums of the latest prices of the items seen up to `i` and up to
`i - 1`. -/
theorem CreateIndexValueHistory_divisor_held (ord : RangeOrder)
    (l1 l2 : List (Transaction ι)) (t : Transaction ι) (hne : l1 ≠ [])
    (hold : t.ItemID ∈ l1.map (fun u => u.ItemID)) :
    (civAfter ord (l1 ++ [t])).lastDivisor = (civAfter ord l1).lastDivisor ∧
    ((∀ u ∈ l1 ++ t :: l2, 0 < u.Price) →
      ∃ r p, (CreateIndexValueHistory ord (l1 ++ t :: l2))[l1.length]? = some r ∧
        (CreateIndexValueHistory ord (l1 ++ t :: l2))[l1.length - 1]? = some p ∧
        r.Transaction = t ∧
        r.IndexValue / p.IndexValue = latestPriceSum (l1 ++ [t]) / latestPriceSum l1) := by
  obtain ⟨hkeys, hrlen, hlast⟩ := CIVStruct_after ord l1
  have hlen0 : l1.length ≠ 0 := fun e => hne (List.length_eq_zero.1 e)
  have hnotfirst : civIsFirstSale (civAfter ord l1) t = false := by
    unfold civIsFirstSale
    cases hl : GoMap.lookup (civAfter ord l1).transactionMap t.ItemID with
    | none => exact absurd hold ((hkeys t.ItemID).1 hl)
    | some v => rfl
  have hdiv : (civAfter ord (l1 ++ [t])).lastDivisor = (civAfter ord l1).lastDivisor := by
    rw [civAfter_snoc]
    simp [civStep, hlen0, civNextDivisor, hnotfirst]
  refine ⟨hdiv, fun hpos => ?_⟩
  obtain ⟨X, hX, -⟩ := CreateIndexValueHistory_split ord l1 l2 t
  obtain ⟨hm, hd, hl, -⟩ := CIVPos_after ord l1
    (fun u hu => hpos u (List.mem_append_left _ hu))
  have hlast' := hlast hne
  rw [List.getLast?_eq_getElem?, hrlen] at hlast'
  have hi1 : l1.length - 1 < (civAfter ord l1).result.length := by omega
  rw [List.getElem?_eq_getElem hi1] at hlast'
  simp only [Option.map_some', Option.some.injEq] at hlast'
  have hmem : t.ItemID ∈ (civAfter ord l1).transactionMap.map Prod.fst := by
    by_contra hc
    exact absurd hold ((hkeys t.ItemID).1 ((GoMap.lookup_eq_none_iff _ _).2 hc))
  have hcount : GoMap.len (civAfter ord (l1 ++ [t])).transactionMap =
      GoMap.len (civAfter ord l1).transactionMap := by
    rw [civAfter_snoc, civStep_map, civMap]
    exact GoMap.len_store_of_mem _ _ _ hmem
  have hn : (0 : ℚ) < (GoMap.len (civAfter ord l1).transactionMap : ℚ) := by
    have : 0 < GoMap.len (civAfter ord l1).transactionMap := by
      unfold GoMap.len
      apply List.length_pos.2
      intro e
      rw [e] at hmem
      simp at hmem
    exact_mod_cast this
  have hnd : (GoMap.len (civAfter ord l1).transactionMap : ℚ) * (civAfter ord l1).lastDivisor ≠ 0 :=
    ne_of_gt (mul_pos hn hd)
  refine ⟨{ ItemID := t.ItemID, Price := t.Price,
            IndexValue := (civStep ord l1.length (civAfter ord l1) t).lastIndexValue,
            Transaction := t }, (civAfter ord l1).result[l1.length - 1], ?_, ?_, rfl, ?_⟩
  · rw [hX, List.getElem?_append_right (by omega), hrlen]
    simp
  · rw [hX, List.getElem?_append_left hi1, List.getElem?_eq_getElem hi1]
  · rw [hlast']
    show (civStep ord l1.length (civAfter ord l1) t).lastIndexValue / _ = _
    rw [← civAfter_snoc, civAfter_lastIndexValue ord (l1 ++ [t]) (by simp),
      civAfter_lastIndexValue ord l1 hne, hcount, hdiv]
    exact div_div_div_cancel_right₀ hnd _ _

/-- Witness for C16: Mars 612, Hyacinth 700, then Hyacinth again at 400. -/
theorem CreateIndexValueHistory_divisor_held_witness :
    (civAfter RangeOrder.stored
        ([⟨612, 1, 958⟩, ⟨700, 2, 970⟩] ++ [⟨400, 2, 997⟩] : List (Transaction Nat))).lastDivisor =
      (civAfter RangeOrder.stored
        ([⟨612, 1, 958⟩, ⟨700, 2, 970⟩] : List (Transaction Nat))).lastDivisor :=
  (CreateIndexValueHistory_divisor_held RangeOrder.stored [⟨612, 1, 958⟩, ⟨700, 2, 970⟩] []
    ⟨400, 2, 997⟩ (by simp) (by simp)).1

end DivisorClaims

section ErrorClaims
variable {ι : Type} [DecidableEq ι]

/-- A first sale against a last index value of zero divides by zero at line
132, and its record is emitted all the same. -/
theorem civ_zero_base_record (ord : RangeOrder)
    (l1 l2 : List (Transaction ι)) (t : Transaction ι) (hne : l1 ≠ [])
    (hnew : t.ItemID ∉ l1.map (fun u => u.ItemID))
    (hzero : (civAfter ord l1).lastIndexValue = 0) :
    (0 : ℚ) ∈ civDenominators ord l1.length (civAfter ord l1) t ∧
    (CreateIndexValueHistory ord (l1 ++ t :: l2)).length = (l1 ++ t :: l2).length ∧
    ∃ r, (CreateIndexValueHistory ord (l1 ++ t :: l2))[l1.length]? = some r ∧
      r.Transaction = t := by
  obtain ⟨hkeys, hrlen, -⟩ := CIVStruct_after ord l1
  have hlen0 : l1.length ≠ 0 := fun e => hne (List.length_eq_zero.1 e)
  have hfirst : civIsFirstSale (civAfter ord l1) t = true := by
    unfold civIsFirstSale
    rw [(hkeys t.ItemID).2 hnew]
    rfl
  refine ⟨?_, CreateIndexValueHistory_length ord _, ?_⟩
  · unfold civDenominators
    rw [if_pos ⟨hlen0, hfirst⟩, hzero]
    simp
  · obtain ⟨X, hX, -⟩ := CreateIndexValueHistory_split ord l1 l2 t
    refine ⟨{ ItemID := t.ItemID, Price := t.Price,
              IndexValue := (civStep ord l1.length (civAfter ord l1) t).lastIndexValue,
              Transaction := t }, ?_, rfl⟩
    rw [hX, List.getElem?_append_right (by omega), hrlen]
    simp

/-- C15, counterexample: after a first transaction of price 0 the last index
value is 0; the first sale of another item at position 1 re-bases against it
(the denominator of line 132 is 0), and `CreateIndexValueHistory` still emits
the record of position 1: no error is reported in place of the record. -/
theorem CreateIndexValueHistory_zero_base_emits_record :
    (civAfter RangeOrder.stored ([⟨0, 1, 10⟩] : List (Transaction Nat))).lastIndexValue = 0 ∧
    (0 : ℚ) ∈ civDenominators RangeOrder.stored 1
      (civAfter RangeOrder.stored ([⟨0, 1, 10⟩] : List (Transaction Nat))) ⟨5, 2, 11⟩ ∧
    (CreateIndexValueHistory RangeOrder.stored
      ([⟨0, 1, 10⟩, ⟨5, 2, 11⟩] : List (Transaction Nat))).length = 2 ∧
    ∃ r, (CreateIndexValueHistory RangeOrder.stored
      ([⟨0, 1, 10⟩, ⟨5, 2, 11⟩] : List (Transaction Nat)))[1]? = some r ∧
      r.Transaction = ⟨5, 2, 11⟩ := by
  have h0 : (civAfter RangeOrder.stored ([⟨0, 1, 10⟩] : List (Transaction Nat))).lastIndexValue
      = 0 := by
    simp [civAfter, civLoop, civStep, civInit, civMap, civIndexValue, civAllLastSoldValue,
      civItemCount, GoMap.store, GoMap.len, RangeOrder.stored]
  obtain ⟨a, b, c⟩ := civ_zero_base_record RangeOrder.stored
    ([⟨0, 1, 10⟩] : List (Transaction Nat)) [] ⟨5, 2, 11⟩ (by simp) (by simp) h0
  exact ⟨h0, a, b, c⟩

/-- C15, amended: `CreateIndexValueHistory` reports no error.  When the first
sale of an item at a position `i > 0` (`i` is the length of the non-empty
`l1`) meets a last index value of exactly zero, the re-basing ratio of line
132 has the denominator 0, and the history still has one record per
transaction, the record of position `i` included. -/
theorem CreateIndexValueHistory_no_error_result (ord : RangeOrder)
    (l1 l2 : List (Transaction ι)) (t : Transaction ι) (hne : l1 ≠ [])
    (hnew : t.ItemID ∉ l1.map (fun u => u.ItemID))
    (hzero : (civAfter ord l1).lastIndexValue = 0) :
    (0 : ℚ) ∈ civDenominators ord l1.length (civAfter ord l1) t ∧
    (CreateIndexValueHistory ord (l1 ++ t :: l2)).length = (l1 ++ t :: l2).length ∧
    ∃ r, (CreateIndexValueHistory ord (l1 ++ t :: l2))[l1.length]? = some r ∧
      r.Transaction = t :=
  civ_zero_base_record ord l1 l2 t hne hnew hzero

/-- Witness for the amended C15: a first transaction of price 0, then the
first sale of another item. -/
theorem CreateIndexValueHistory_no_error_result_witness :
    (CreateIndexValueHistory RangeOrder.stored
      ([⟨0, 1, 10⟩] ++ ⟨5, 2, 11⟩ :: [] : List (Transaction Nat))).length =
      ([⟨0, 1, 10⟩] ++ ⟨5, 2, 11⟩ :: [] : List (Transaction Nat)).length :=
  (CreateIndexValueHistory_no_error_result RangeOrder.stored [⟨0, 1, 10⟩] [] ⟨5, 2, 11⟩
    (by simp) (by simp)
    (by simp [civAfter, civLoop, civStep, civInit, civMap, civIndexValue, civAllLastSoldValue,
      civItemCount, GoMap.store, GoMap.len, RangeOrder.stored])).2.1

end ErrorClaims

section ScaleLemmas
variable {ι : Type} [DecidableEq ι]

theorem GoMap.store_map_values {V W : Type} (g : V → W) (m : GoMap ι V) (k : ι) (v : V) :
    GoMap.store (m.map (fun kv => (kv.1, g kv.2))) k (g v) =
      (GoMap.store m k v).map (fun kv => (kv.1, g kv.2)) := by
  induction m with
  | nil => simp [GoMap.store]
  | cons p rest ih =>
    obtain ⟨a, b⟩ := p
    by_cases h : a = k
    · simp [GoMap.store, h]
    · simp only [List.map_cons, GoMap.store, h, if_false, ih]

theorem GoMap.lookup_map_values {V W : Type} (g : V → W) (m : GoMap ι V) (k : ι) :
    GoMap.lookup (m.map (fun kv => (kv.1, g kv.2))) k = (GoMap.lookup m k).map g := by
  induction m with
  | nil => simp [GoMap.lookup]
  | cons p rest ih =>
    obtain ⟨a, b⟩ := p
    by_cases h : a = k
    · simp [GoMap.lookup, h]
    · simp only [List.map_cons, GoMap.lookup, h, if_false, ih]

theorem Scaled_step (ord : RangeOrder) (c : ℚ) (hc : c ≠ 0) (i : Nat) (st st' : CIVState ι)
    (t : Transaction ι) (h : Scaled c st st') :
    Scaled c (civStep ord i st t) (civStep ord i st' (scalePrice c t)) := by
  obtain ⟨hm, hl, hd, hr⟩ := h
  have hfirst : civIsFirstSale st' (scalePrice c t) = civIsFirstSale st t := by
    unfold civIsFirstSale
    rw [hm]
    show (!(GoMap.lookup _ t.ItemID).isSome) = _
    rw [GoMap.lookup_map_values]
    cases GoMap.lookup st.transactionMap t.ItemID <;> rfl
  have hmap : civMap st' (scalePrice c t) =
      (civMap st t).map (fun kv => (kv.1, scalePrice c kv.2)) := by
    unfold civMap
    rw [hm]
    exact GoMap.store_map_values (scalePrice c) st.transactionMap t.ItemID t
  have hn : civItemCount st' (scalePrice c t) = civItemCount st t := by
    unfold civItemCount GoMap.len
    rw [hmap, List.length_map]
  have hA : civAllLastSoldValue ord st' (scalePrice c t) = c * civAllLastSoldValue ord st t := by
    rw [civAllLastSoldValue_eq, civAllLastSoldValue_eq, hmap, List.map_map, ← List.sum_map_mul_left]
    rfl
  have hI : civIndexValue ord st' (scalePrice c t) = c * civIndexValue ord st t := by
    unfold civIndexValue
    rw [hA, hn, hd, mul_div_assoc]
  have hN : civNextDivisor ord st' (scalePrice c t) = civNextDivisor ord st t := by
    unfold civNextDivisor
    rw [hfirst, hI, hl, hd, mul_div_mul_left _ _ hc]
  have hW : civWeightedIndexValue ord st' (scalePrice c t) =
      c * civWeightedIndexValue ord st t := by
    unfold civWeightedIndexValue
    rw [hA, hn, hN, mul_div_assoc]
  have h2 : (civStep ord i st' (scalePrice c t)).lastIndexValue =
      c * (civStep ord i st t).lastIndexValue := by
    by_cases hi : i = 0
    · simpa [civStep, hi] using hI
    · simpa [civStep, hi] using hW
  refine ⟨by rw [civStep_map, civStep_map]; exact hmap, h2, ?_, ?_⟩
  · by_cases hi : i = 0
    · simpa [civStep, hi] using hd
    · simpa [civStep, hi] using hN
  · rw [civStep_result, civStep_result, hr, h2]
    simp [scaleRecord, scalePrice]

theorem Scaled_after (ord : RangeOrder) (c : ℚ) (hc : c ≠ 0) (l : List (Transaction ι)) :
    Scaled c (civAfter ord l) (civAfter ord (scalePrices c l)) := by
  induction l using List.reverseRecOn with
  | nil => simp [Scaled, scalePrices, civAfter, civLoop, civInit]
  | append_singleton l t ih =>
    have e : scalePrices c (l ++ [t]) = scalePrices c l ++ [scalePrice c t] := by
      simp [scalePrices]
    have hlen : (scalePrices c l).length = l.length := by simp [scalePrices]
    rw [e, civAfter_snoc, civAfter_snoc, hlen]
    exact Scaled_step ord c hc l.length _ _ t ih

theorem CreateIndexValueHistory_scale (ord : RangeOrder) (c : ℚ) (hc : c ≠ 0)
    (l : List (Transaction ι)) :
    CreateIndexValueHistory ord (scalePrices c l) =
      (CreateIndexValueHistory ord l).map (scaleRecord c) :=
  (Scaled_after ord c hc l).2.2.2

theorem SortTransactions_scale {κ : Type} (c : ℚ) (l : List (Transaction κ)) :
    SortTransactions (scalePrices c l) = scalePrices c (SortTransactions l) := by
  unfold SortTransactions sortSlice scalePrices
  exact (List.map_insertionSort (r := fun a b : Transaction κ => ¬ before b a)
    (s := fun a b : Transaction κ => ¬ before b a) (scalePrice c) l
    (fun a _ b _ => Iff.rfl)).symm

theorem visitInclude_scale {κ : Type} (y s : Int) (c : ℚ) (inc : Include) (t : Transaction κ) :
    visitInclude y s inc (scalePrice c t) = visitInclude y s inc t := rfl

theorem recordAfter_scale (y s : Int) (c : ℚ) (inc : Include) (l : List (Transaction ι))
    (a : ι) : recordAfter y s inc (scalePrices c l) a = recordAfter y s inc l a := by
  unfold recordAfter scalePrices
  rw [List.filter_map, List.foldl_map]
  rfl

theorem FilterValidTransactions_scale (y s : Int) (c : ℚ) (l : List (Transaction ι)) :
    FilterValidTransactions y s (scalePrices c l) =
      scalePrices c (FilterValidTransactions y s l) := by
  rw [FilterValidTransactions_eq_filter, FilterValidTransactions_eq_filter]
  simp only [recordAfter_scale]
  unfold scalePrices
  rw [List.filter_map]
  rfl

theorem lastSaleMap_scale (c : ℚ) (h : List (IndexValueHistoryItem ι)) :
    lastSaleMap (h.map (scaleRecord c)) =
      (lastSaleMap h).map (fun kv => (kv.1, scaleRecord c kv.2)) := by
  induction h using List.reverseRecOn with
  | nil => simp [lastSaleMap]
  | append_singleton h r ih =>
    rw [List.map_append, List.map_singleton, lastSaleMap_snoc, lastSaleMap_snoc, ih]
    exact GoMap.store_map_values (scaleRecord c) (lastSaleMap h) r.ItemID r

theorem withRatio_scale {κ : Type} (c : ℚ) (hc : c ≠ 0) (v : IndexValueHistoryItem κ) :
    (withRatio (scaleRecord c v)).IndexRatio = (withRatio v).IndexRatio := by
  simp only [withRatio, scaleRecord]
  exact mul_div_mul_left _ _ hc

/-- The item and ratio pairs of `GetIndexRatios` are the same, up to the order
of the map iteration, on a history and on the history scaled by `c`. -/
theorem GetIndexRatios_scale (ord ord' : RangeOrder) (c : ℚ) (hc : c ≠ 0)
    (h : List (IndexValueHistoryItem ι)) :
    ((GetIndexRatios ord' (h.map (scaleRecord c))).map
        (fun r => (r.IndexValueHistoryItem.ItemID, r.IndexRatio))).Perm
      ((GetIndexRatios ord h).map (fun r => (r.IndexValueHistoryItem.ItemID, r.IndexRatio))) := by
  unfold GetIndexRatios
  rw [lastSaleMap_scale, List.map_map, List.map_map]
  refine List.Perm.trans ((ord'.perm _).map _) ?_
  refine List.Perm.trans ?_ ((ord.perm _).map _).symm
  rw [List.map_map]
  apply List.Perm.of_eq
  apply List.map_congr_left
  intro kv _
  simp only [Function.comp, withRatio_scale c hc]
  rfl

theorem timeAdjustedValue_scale (c : ℚ) (hc : c ≠ 0) (h : List (IndexValueHistoryItem ι))
    (a : ι) :
    timeAdjustedValue (h.map (scaleRecord c)) a = c * timeAdjustedValue h a := by
  have hfin : finalIndexValue (h.map (scaleRecord c)) = c * finalIndexValue h := by
    unfold finalIndexValue
    rw [List.getLast?_map]
    cases h.getLast? <;> simp [scaleRecord]
  have hlast : lastRecordOf (h.map (scaleRecord c)) a =
      (lastRecordOf h a).map (scaleRecord c) := by
    unfold lastRecordOf
    rw [List.filter_map, List.getLast?_map]
    rfl
  unfold timeAdjustedValue
  rw [hlast, hfin]
  cases lastRecordOf h a with
  | none => simp
  | some v =>
    simp only [Option.map_some']
    show c * finalIndexValue h * (c * v.Price / (c * v.IndexValue)) = _
    rw [mul_div_mul_left _ _ hc, mul_assoc]

theorem TAMI_scale (ord : RangeOrder) (y s : Int) (c : ℚ) (hc : c ≠ 0)
    (txs : List (Transaction ι)) :
    TAMI ord y s (scalePrices c txs) = c * TAMI ord y s txs := by
  rw [TAMI_unfold, TAMI_unfold, aggregate_eq_sum, aggregate_eq_sum, SortTransactions_scale,
    FilterValidTransactions_scale, CreateIndexValueHistory_scale ord c hc, Finset.mul_sum]
  have hids : ((CreateIndexValueHistory ord
      (FilterValidTransactions y s (SortTransactions txs))).map (scaleRecord c)).map
        (fun r => r.ItemID) =
      (CreateIndexValueHistory ord
        (FilterValidTransactions y s (SortTransactions txs))).map (fun r => r.ItemID) := by
    rw [List.map_map]
    rfl
  rw [hids]
  exact Finset.sum_congr rfl (fun a _ => timeAdjustedValue_scale c hc _ a)

end ScaleLemmas

section ScaleClaims
variable {ι : Type} [DecidableEq ι]

/-- C19: the index is homogeneous of degree one in the prices.  With strictly
positive prices and `c > 0`, multiplying every price by `c` multiplies every
`IndexValue` of the history by `c`, leaves the divisor after every step
unchanged, leaves the `IndexRatio` of every item unchanged, and multiplies
`TAMI` by `c`. -/
theorem TAMI_homogeneous (ord : RangeOrder) (oneYearAgo sixMonthsAgo : Int) (c : ℚ)
    (hc : 0 < c) (txs : List (Transaction ι)) (hpos : ∀ t ∈ txs, 0 < t.Price) :
    (∀ t ∈ scalePrices c txs, 0 < t.Price) ∧
    (CreateIndexValueHistory ord (scalePrices c txs)).map (fun r => r.IndexValue) =
      (CreateIndexValueHistory ord txs).map (fun r => c * r.IndexValue) ∧
    (∀ l1 l2 : List (Transaction ι), txs = l1 ++ l2 →
      (civAfter ord (scalePrices c l1)).lastDivisor = (civAfter ord l1).lastDivisor) ∧
    ((GetIndexRatios ord (CreateIndexValueHistory ord (scalePrices c txs))).map
        (fun r => (r.IndexValueHistoryItem.ItemID, r.IndexRatio))).Perm
      ((GetIndexRatios ord (CreateIndexValueHistory ord txs)).map
        (fun r => (r.IndexValueHistoryItem.ItemID, r.IndexRatio))) ∧
    TAMI ord oneYearAgo sixMonthsAgo (scalePrices c txs) =
      c * TAMI ord oneYearAgo sixMonthsAgo txs := by
  have hc0 : c ≠ 0 := ne_of_gt hc
  refine ⟨?_, ?_, ?_, ?_, TAMI_scale ord _ _ c hc0 txs⟩
  · intro t ht
    obtain ⟨u, hu, rfl⟩ := List.mem_map.1 ht
    exact mul_pos hc (hpos u hu)
  · rw [CreateIndexValueHistory_scale ord c hc0, List.map_map]
    rfl
  · intro l1 l2 _
    exact (Scaled_after ord c hc0 l1).2.2.1
  · rw [CreateIndexValueHistory_scale ord c hc0]
    exact GetIndexRatios_scale ord ord c hc0 _

/-- Witness for C19: the four valid transactions of the fixture, tripled. -/
theorem TAMI_homogeneous_witness :
    TAMI RangeOrder.stored (-365) (-182) (scalePrices 3
        ([⟨612, 1, -42⟩, ⟨700, 2, -30⟩, ⟨400, 2, -3⟩, ⟨1200, 1, -2⟩] : List (Transaction Nat))) =
      3 * TAMI RangeOrder.stored (-365) (-182)
        ([⟨612, 1, -42⟩, ⟨700, 2, -30⟩, ⟨400, 2, -3⟩, ⟨1200, 1, -2⟩] : List (Transaction Nat)) :=
  (TAMI_homogeneous RangeOrder.stored (-365) (-182) 3 (by norm_num)
    [⟨612, 1, -42⟩, ⟨700, 2, -30⟩, ⟨400, 2, -3⟩, ⟨1200, 1, -2⟩] (by simp)).2.2.2.2

end ScaleClaims

end Tami
